import Mathlib

/-!
Shallow embedding of the tBTC v2 Bridge deposit-sweep settlement engine
(`Bridge.sol`: `revealDeposit`, `sweep` and their helpers) and of the
client-side deposit-sweep transaction assembler
(`assembleDepositSweepTransaction` in the TypeScript client).

Modelling conventions:
* Solidity machine integers are `Nat`; Solidity 0.8 checked arithmetic is
  modelled explicitly: subtraction and division are guarded, and an
  underflow / division-by-zero / array-out-of-bounds panic is an error
  (`panicUnderflow`, `panicDivisionByZero`, `panicIndexOutOfBounds`),
  matching the EVM revert-on-panic semantics.  A reverted call leaves the
  state unchanged, which the `Except` result models: callers keep the old
  state on `.error`.
* Byte-level Bitcoin parsing (`BTCUtils` / `ValidateSPV`) is embedded at
  the level of the data it extracts: a transaction is its `version`,
  structured input and output vectors, and `locktime`; an input is the
  `(previous tx hash, previous output index)` pair that `parseTxInputAt`
  extracts; an output is its value plus its locking-script classification
  and the payload `extractHash` returns for it.  Per the classification
  documented in `revealDeposit` (and implemented by `BTCUtils.extractHash`),
  the extracted hash is 20 bytes for P2PKH, P2WPKH and P2SH outputs,
  32 bytes for P2WSH outputs, and empty otherwise.
* Hash functions (`hash256` of a serialized transaction, `hash160` /
  `hash256` of a deposit script, the double-SHA256 merkle combination step,
  the hash of an 80-byte header) are abstract parameters collected in `Env`.
* `keccak256`-keyed mappings are idealized collision-free: the deposit key
  `keccak256(fundingTxHash ‖ fundingOutputIndex)` is the pair itself, and
  the per-wallet sweep pointer `keccak256(txHash ‖ txOutputValue)` is the
  pair `(txHash, txOutputValue)` (with `none` for the `bytes32(0)`
  sentinel).  Mappings are association lists with first-match lookup.
-/

deriving instance DecidableEq for Except

/-- Deposit registry key: the idealized `keccak256(fundingTxHash ‖ fundingOutputIndex)`. -/
abbrev DepKey := Nat × Nat

/-- Represents tBTC deposit data (`struct DepositInfo`). -/
structure DepositInfo where
  depositor : Nat
  amount : Nat
  revealedAt : Nat
  vault : Nat
  sweptAt : Nat
deriving DecidableEq, Repr

/-- The all-zero `DepositInfo`, the value of an unset mapping slot. -/
def emptyDeposit : DepositInfo :=
  { depositor := 0, amount := 0, revealedAt := 0, vault := 0, sweptAt := 0 }

/-- Data revealed by the depositor during deposit reveal (`struct RevealInfo`). -/
structure RevealInfo where
  fundingOutputIndex : Nat
  depositor : Nat
  blindingFactor : Nat
  walletPubKeyHash : Nat
  refundPubKeyHash : Nat
  refundLocktime : Nat
  vault : Nat
deriving DecidableEq, Repr

/-- Info about a sweep (`struct SweepInfo`): tx hash and single-output value. -/
structure SweepInfo where
  txHash : Nat
  txOutputValue : Nat
deriving DecidableEq, Repr

/-- Locking-script classification of a transaction output, as distinguished
by `BTCUtils.extractHash` (see the comments in `revealDeposit`). -/
inductive ScriptKind where
  | p2pkh
  | p2wpkh
  | p2sh
  | p2wsh
  | nonstandard
deriving DecidableEq, Repr

/-- Byte length of the payload `extractHash` returns for each script class:
20 bytes for P2PKH / P2WPKH (HASH160 of a public key) and for P2SH
(HASH160 of a script), 32 bytes for P2WSH (HASH256 of a script), empty
for anything non-standard. -/
def scriptHashLength : ScriptKind → Nat
  | .p2pkh => 20
  | .p2wpkh => 20
  | .p2sh => 20
  | .p2wsh => 32
  | .nonstandard => 0

/-- A transaction output: its 8-byte value and the data `extractHash`
extracts from its locking script. -/
structure TxOutput where
  value : Nat
  scriptKind : ScriptKind
  scriptHash : Nat
deriving DecidableEq, Repr

/-- A transaction input as extracted by `parseTxInputAt`: previous tx hash
(`extractInputTxIdLeAt`) and previous output index (`extractTxIndexLeAt`). -/
structure TxInput where
  txHash : Nat
  txIndex : Nat
deriving DecidableEq, Repr

/-- Structured Bitcoin transaction data (`struct BitcoinTx.Info`). -/
structure TxInfo where
  version : Nat
  inputs : List TxInput
  outputs : List TxOutput
  locktime : Nat
deriving DecidableEq, Repr

/-- A Bitcoin block header, at the level the SPV checks consume it:
previous-block hash field, merkle root field, and the difficulty target
encoded by its `nBits`. -/
structure Header where
  prevHash : Nat
  merkleRoot : Nat
  target : Nat
deriving DecidableEq, Repr

/-- SPV proof data (`struct BitcoinTx.Proof`): intermediate merkle nodes,
transaction index in the block, and the concatenated header chain. -/
structure SweepProof where
  merkleNodes : List Nat
  txIndexInBlock : Nat
  headers : List Header
deriving DecidableEq, Repr

/-- The deposit locking script reconstructed by `revealDeposit`.  The byte
template is fixed and every field has a fixed width, so the script is
faithfully represented by its field tuple. -/
structure DepositScript where
  depositor : Nat
  blindingFactor : Nat
  walletPubKeyHash : Nat
  refundPubKeyHash : Nat
  refundLocktime : Nat
deriving DecidableEq, Repr

/-- Abstract environment: hash functions and the external collaborators
(difficulty relay, immutable confirmation factor). -/
structure Env where
  /-- Hash `hash256` of a serialized transaction (version ‖ vin ‖ vout ‖ locktime). -/
  hashTx : TxInfo → Nat
  /-- Hash `HASH160` of a deposit locking script. -/
  scriptHash160 : DepositScript → Nat
  /-- Hash `hash256` (double SHA-256) of a deposit locking script. -/
  scriptHash256 : DepositScript → Nat
  /-- One merkle combination step, `hash256(left ‖ right)`. -/
  merkleStep : Nat → Nat → Nat
  /-- Hash `hash256` of an 80-byte serialized header. -/
  hashHeader : Header → Nat
  /-- Relay call `IRelay.getCurrentEpochDifficulty`. -/
  currentEpochDifficulty : Nat
  /-- Relay call `IRelay.getPrevEpochDifficulty`. -/
  prevEpochDifficulty : Nat
  /-- Immutable `txProofDifficultyFactor`. -/
  txProofDifficultyFactor : Nat

/-- Errors of the settlement engine.  Each constructor corresponds to one
`require` / `revert` string in the contract, or to a Solidity 0.8
arithmetic / bounds panic. -/
inductive BridgeError where
  /-- Require `Vault is not trusted` -/
  | vaultNotTrusted
  /-- out-of-bounds `extractOutputAtIndex` (library revert) -/
  | outputIndexOutOfBounds
  /-- Require `Wrong 20-byte script hash` -/
  | wrongScriptHash20
  /-- Require `Wrong 32-byte script hash` -/
  | wrongScriptHash32
  /-- Require `Wrong script hash length` -/
  | wrongScriptHashLength
  /-- Require `Deposit already revealed` -/
  | depositAlreadyRevealed
  /-- Require `Invalid input vector provided` -/
  | invalidInputVector
  /-- Require `Invalid output vector provided` -/
  | invalidOutputVector
  /-- headers chain too short for field extraction (library revert) -/
  | malformedHeaders
  /-- Require `Tx merkle proof is not valid for provided header and tx hash` -/
  | invalidMerkleProof
  /-- Require `Not at current or previous difficulty` -/
  | staleOrFutureDifficulty
  /-- Require `Invalid headers chain` -/
  | invalidHeadersChain
  /-- Require `Insufficient work in a header` -/
  | insufficientHeaderWork
  /-- Require `Insufficient accumulated difficulty in header chain` -/
  | insufficientAccumulatedDifficulty
  /-- Require `Sweep transaction must have a single output` -/
  | multiOutputSweep
  /-- Require `Wallet public key hash should have 20 bytes` -/
  | wrongWalletPubKeyHashLength
  /-- Require `Invalid previous sweep data` -/
  | invalidPreviousSweepData
  /-- Require `Deposit already swept` -/
  | depositAlreadySwept
  /-- Require `Unknown input type` -/
  | unknownInputType
  /-- Require `Previous sweep output not present in sweep transaction inputs` -/
  | previousSweepOutputNotPresent
  /-- Solidity 0.8 checked-subtraction underflow, `Panic(0x11)` -/
  | panicUnderflow
  /-- Solidity 0.8 division by zero, `Panic(0x12)` -/
  | panicDivisionByZero
  /-- Solidity 0.8 array index out of bounds, `Panic(0x32)` -/
  | panicIndexOutOfBounds
deriving DecidableEq, Repr

/-- Bridge contract storage: trusted-vault set, deposit registry, and the
per-wallet sweep pointer.  Mappings are association lists with
first-match lookup; an absent deposit key reads as the zero struct and an
absent sweep pointer reads as the `bytes32(0)` sentinel (`none`). -/
structure BridgeState where
  trustedVaults : List Nat
  deposits : List (DepKey × DepositInfo)
  sweeps : List (Nat × Nat × Nat)
deriving DecidableEq, Repr

/-- Mapping read for `deposits`, defaulting to the zero struct. -/
def getDeposit : List (DepKey × DepositInfo) → DepKey → DepositInfo
  | [], _ => emptyDeposit
  | (k0, v) :: l, k => if k = k0 then v else getDeposit l k

/-- Mapping read for `sweeps`: `some (txHash, txOutputValue)` stands for the
stored `keccak256(txHash ‖ txOutputValue)`, `none` for `bytes32(0)`. -/
def getSweep : List (Nat × Nat × Nat) → Nat → Option (Nat × Nat)
  | [], _ => none
  | (w0, p) :: l, w => if w = w0 then some p else getSweep l w

/-- Solidity 0.8 checked `uint256` subtraction: reverts on underflow. -/
def checkedSub (a b : Nat) : Except BridgeError Nat :=
  if b ≤ a then .ok (a - b) else .error .panicUnderflow

/-- The deposit locking script determined by a `RevealInfo`
(the fixed opcode template of `revealDeposit`). -/
def expectedScript (r : RevealInfo) : DepositScript :=
  { depositor := r.depositor
    blindingFactor := r.blindingFactor
    walletPubKeyHash := r.walletPubKeyHash
    refundPubKeyHash := r.refundPubKeyHash
    refundLocktime := r.refundLocktime }

/-- Embedding of `Bridge.revealDeposit`.  `now` is `block.timestamp`. -/
def revealDeposit (env : Env) (now : Nat) (s : BridgeState) (fundingTx : TxInfo)
    (r : RevealInfo) : Except BridgeError BridgeState :=
  if ¬(r.vault = 0 ∨ r.vault ∈ s.trustedVaults) then .error .vaultNotTrusted
  else
    match fundingTx.outputs.get? r.fundingOutputIndex with
    | none => .error .outputIndexOutOfBounds
    | some o =>
      let scriptOk : Except BridgeError Unit :=
        if scriptHashLength o.scriptKind = 20 then
          if o.scriptHash = env.scriptHash160 (expectedScript r) then .ok ()
          else .error .wrongScriptHash20
        else if scriptHashLength o.scriptKind = 32 then
          if o.scriptHash = env.scriptHash256 (expectedScript r) then .ok ()
          else .error .wrongScriptHash32
        else .error .wrongScriptHashLength
      match scriptOk with
      | .error e => .error e
      | .ok _ =>
        let key : DepKey := (env.hashTx fundingTx, r.fundingOutputIndex)
        let d := getDeposit s.deposits key
        if d.revealedAt ≠ 0 then .error .depositAlreadyRevealed
        else
          .ok { s with deposits :=
                  (key, { depositor := r.depositor
                          amount := o.value
                          revealedAt := now
                          vault := r.vault
                          sweptAt := d.sweptAt }) :: s.deposits }

/-- The merkle-root recomputation of `ValidateSPV.verifyHash256Merkle`:
fold the intermediate nodes over the current hash, taking the left or
right slot according to the index bits. -/
def foldMerkle (step : Nat → Nat → Nat) : Nat → Nat → List Nat → Nat
  | cur, _, [] => cur
  | cur, idx, n :: rest =>
    foldMerkle step (if idx % 2 = 1 then step n cur else step cur n) (idx / 2) rest

/-- Embedding of `ValidateSPV.prove`: shortcut for the single-transaction
block, the always-false 64-byte case, otherwise compare the recomputed
root with the given one. -/
def spvProve (step : Nat → Nat → Nat) (txid root : Nat) (nodes : List Nat)
    (idx : Nat) : Bool :=
  if txid = root ∧ idx = 0 ∧ nodes = [] then true
  else if nodes = [] then false
  else decide (foldMerkle step txid idx nodes = root)

/-- Constant `DIFF1_TARGET`, the maximal (difficulty-1) target. -/
def diff1Target : Nat := 0xffff * 2 ^ 208

/-- Embedding of `BTCUtils.calculateDifficulty`: `DIFF1_TARGET / target`, with the
Solidity division-by-zero panic made explicit. -/
def calculateDifficulty (target : Nat) : Except BridgeError Nat :=
  if target = 0 then .error .panicDivisionByZero else .ok (diff1Target / target)

/-- Embedding of the `ValidateSPV.validateHeaderChain` walk: check each
header's work against its own target, check linkage to the previous
header's digest, and accumulate per-header difficulty. -/
def validateHeaderChainGo (hashHeader : Header → Nat) :
    Option Nat → Nat → List Header → Except BridgeError Nat
  | _, acc, [] => .ok acc
  | prevDigest, acc, h :: rest =>
    let digest := hashHeader h
    if digest > h.target then .error .insufficientHeaderWork
    else
      match prevDigest with
      | some d =>
        if h.prevHash ≠ d then .error .invalidHeadersChain
        else
          match calculateDifficulty h.target with
          | .error e => .error e
          | .ok diff => validateHeaderChainGo hashHeader (some digest) (acc + diff) rest
      | none =>
        match calculateDifficulty h.target with
        | .error e => .error e
        | .ok diff => validateHeaderChainGo hashHeader (some digest) (acc + diff) rest

/-- Embedding of `ValidateSPV.validateHeaderChain` on a structured header chain.  The
byte-length check is inapplicable (the structured chain is well-formed by
construction); the `ERR_INVALID_CHAIN` and `ERR_LOW_WORK` sentinels are
the corresponding errors. -/
def validateHeaderChain (hashHeader : Header → Nat) (headers : List Header) :
    Except BridgeError Nat :=
  validateHeaderChainGo hashHeader none 0 headers

/-- Embedding of `Bridge.evaluateProofDifficulty`. -/
def evaluateProofDifficulty (env : Env) (headers : List Header) :
    Except BridgeError Unit :=
  match headers with
  | [] => .error .malformedHeaders
  | h :: _ =>
    match calculateDifficulty h.target with
    | .error e => .error e
    | .ok firstHeaderDiff =>
      let requested : Except BridgeError Nat :=
        if firstHeaderDiff = env.currentEpochDifficulty then
          .ok env.currentEpochDifficulty
        else if firstHeaderDiff = env.prevEpochDifficulty then
          .ok env.prevEpochDifficulty
        else .error .staleOrFutureDifficulty
      match requested with
      | .error e => .error e
      | .ok requestedDiff =>
        match validateHeaderChain env.hashHeader headers with
        | .error e => .error e
        | .ok observedDiff =>
          if observedDiff ≥ requestedDiff * env.txProofDifficultyFactor then .ok ()
          else .error .insufficientAccumulatedDifficulty

/-- Embedding of `Bridge.checkProofFromTxHash`: merkle inclusion against the
first header's root, then the difficulty evaluation. -/
def checkProofFromTxHash (env : Env) (txHash : Nat) (p : SweepProof) :
    Except BridgeError Unit :=
  match p.headers with
  | [] => .error .malformedHeaders
  | h :: _ =>
    if spvProve env.merkleStep txHash h.merkleRoot p.merkleNodes p.txIndexInBlock then
      evaluateProofDifficulty env p.headers
    else .error .invalidMerkleProof

/-- Embedding of `Bridge.processSweepTxOutput`: require exactly one output
and a 20-byte extracted hash; return `(walletPubKeyHash, value)`. -/
def processSweepTxOutput (outs : List TxOutput) :
    Except BridgeError (Nat × Nat) :=
  if outs.length ≠ 1 then .error .multiOutputSweep
  else
    match outs with
    | [] => .error .multiOutputSweep
    | o :: _ =>
      if scriptHashLength o.scriptKind = 20 then .ok (o.scriptHash, o.value)
      else .error .wrongWalletPubKeyHashLength

/-- Previous-sweep resolution step of `Bridge.sweep`: an absent pointer
resolves to the empty `SweepInfo`; a present pointer must be matched by
the caller-supplied data. -/
def resolvePreviousSweep (s : BridgeState) (walletPubKeyHash : Nat)
    (previousSweep : SweepInfo) : Except BridgeError SweepInfo :=
  match getSweep s.sweeps walletPubKeyHash with
  | none => .ok { txHash := 0, txOutputValue := 0 }
  | some p =>
    if (previousSweep.txHash, previousSweep.txOutputValue) = p then .ok previousSweep
    else .error .invalidPreviousSweepData

/-- Inputs-processing loop of `Bridge.processSweepTxInputs`.  `maxDeposits`
is the length of the `depositors` / `depositedAmounts` arrays; writing at
an index `≥ maxDeposits` is the Solidity bounds panic.  Credited deposits
are returned as `(key, depositor, amount)` triples — the key is carried so
registry-level bookkeeping can be stated; the Bank call receives only the
`(depositor, amount)` projection.  The returned registry has `sweptAt`
set on every credited deposit. -/
def processInputsGo (now : Nat) (previousSweep : SweepInfo) (maxDeposits : Nat) :
    List (DepKey × DepositInfo) → Bool → Nat → List (DepKey × Nat × Nat) →
    List TxInput →
    Except BridgeError (Nat × List (DepKey × Nat × Nat) × List (DepKey × DepositInfo) × Bool)
  | deps, flag, acc, credits, [] => .ok (acc, credits, deps, flag)
  | deps, flag, acc, credits, i :: rest =>
    let key : DepKey := (i.txHash, i.txIndex)
    let d := getDeposit deps key
    if d.revealedAt ≠ 0 then
      if d.sweptAt ≠ 0 then .error .depositAlreadySwept
      else if credits.length ≥ maxDeposits then .error .panicIndexOutOfBounds
      else
        processInputsGo now previousSweep maxDeposits
          ((key, { d with sweptAt := now }) :: deps) flag
          (acc + d.amount) (credits ++ [(key, d.depositor, d.amount)]) rest
    else if flag = false ∧ previousSweep.txHash = i.txHash then
      processInputsGo now previousSweep maxDeposits deps true
        (acc + previousSweep.txOutputValue) credits rest
    else .error .unknownInputType

/-- Embedding of `Bridge.processSweepTxInputs`.  The `depositors` array is
allocated with `inputsCount` entries on a first sweep
(`previousSweep.txHash == bytes32(0)`) and `inputsCount - 1` otherwise;
the checked `inputsCount - 1` subtraction can only panic on a non-first
sweep, so the two cases are branched explicitly.  After the loop the
previous-sweep flag must hold. -/
def processSweepTxInputs (now : Nat) (deps : List (DepKey × DepositInfo))
    (inputs : List TxInput) (previousSweep : SweepInfo) :
    Except BridgeError (Nat × List (DepKey × Nat × Nat) × List (DepKey × DepositInfo)) :=
  if previousSweep.txHash = 0 then
    match processInputsGo now previousSweep inputs.length deps true 0 [] inputs with
    | .error e => .error e
    | .ok (inputsValue, credits, deps1, flag) =>
      if flag then .ok (inputsValue, credits, deps1)
      else .error .previousSweepOutputNotPresent
  else
    if inputs.length = 0 then .error .panicUnderflow
    else
      match processInputsGo now previousSweep (inputs.length - 1) deps false 0 [] inputs with
      | .error e => .error e
      | .ok (inputsValue, credits, deps1, flag) =>
        if flag then .ok (inputsValue, credits, deps1)
        else .error .previousSweepOutputNotPresent

/-- Fee-share reduction loop of `Bridge.sweep`: subtract the same
`feeShare` from every credited amount, with checked subtraction. -/
def creditAmounts (feeShare : Nat) :
    List (DepKey × Nat × Nat) → Except BridgeError (List (DepKey × Nat × Nat))
  | [] => .ok []
  | (k, dep, a) :: rest =>
    match checkedSub a feeShare with
    | .error e => .error e
    | .ok a1 =>
      match creditAmounts feeShare rest with
      | .error e => .error e
      | .ok rest1 => .ok ((k, dep, a1) :: rest1)

/-- Embedding of `Bridge.sweep`.  On success returns the updated state and
the credited `(key, depositor, amount)` triples whose `(depositor, amount)`
projection is passed to `Bank.increaseBalances`. -/
def sweep (env : Env) (now : Nat) (s : BridgeState) (tx : TxInfo)
    (p : SweepProof) (previousSweep : SweepInfo) :
    Except BridgeError (BridgeState × List (DepKey × Nat × Nat)) :=
  if tx.inputs = [] then .error .invalidInputVector
  else if tx.outputs = [] then .error .invalidOutputVector
  else
    match checkProofFromTxHash env (env.hashTx tx) p with
    | .error e => .error e
    | .ok _ =>
      match processSweepTxOutput tx.outputs with
      | .error e => .error e
      | .ok (walletPubKeyHash, outputValue) =>
        match resolvePreviousSweep s walletPubKeyHash previousSweep with
        | .error e => .error e
        | .ok resolvedPrev =>
          match processSweepTxInputs now s.deposits tx.inputs resolvedPrev with
          | .error e => .error e
          | .ok (inputsValue, credits, deposits1) =>
            match checkedSub inputsValue outputValue with
            | .error e => .error e
            | .ok fee =>
              if credits.length = 0 then .error .panicDivisionByZero
              else
                match creditAmounts (fee / credits.length) credits with
                | .error e => .error e
                | .ok credited =>
                  .ok ({ s with
                          deposits := deposits1
                          sweeps := (walletPubKeyHash, env.hashTx tx, outputValue) :: s.sweeps },
                       credited)

/-- Helper instances so that results of `processSweepTxInputs` can be
compared by `decide` (the combined product otherwise exceeds the default
instance-search budget). -/
instance : DecidableEq (List (DepKey × Nat × Nat) × List (DepKey × DepositInfo)) :=
  inferInstance

instance : DecidableEq (Nat × List (DepKey × Nat × Nat) × List (DepKey × DepositInfo)) :=
  inferInstance

/-- Credits list of a sweep call, without the state (decidable to compare). -/
def sweepCredits (env : Env) (now : Nat) (s : BridgeState) (tx : TxInfo)
    (p : SweepProof) (previousSweep : SweepInfo) :
    Except BridgeError (List (DepKey × Nat × Nat)) :=
  match sweep env now s tx p previousSweep with
  | .error e => .error e
  | .ok r => .ok r.2

/-- One settlement-engine operation with its `block.timestamp`. -/
inductive Op where
  | revealOp (fundingTx : TxInfo) (r : RevealInfo) (now : Nat)
  | sweepOp (tx : TxInfo) (p : SweepProof) (previousSweep : SweepInfo) (now : Nat)
deriving Repr

/-- The timestamp of an operation. -/
def Op.now : Op → Nat
  | .revealOp _ _ n => n
  | .sweepOp _ _ _ n => n

/-- Apply one operation with EVM revert semantics: a failing call leaves
the state unchanged and credits nobody. -/
def applyOp (env : Env) (s : BridgeState) : Op → BridgeState × List (DepKey × Nat × Nat)
  | .revealOp fundingTx r now =>
    match revealDeposit env now s fundingTx r with
    | .error _ => (s, [])
    | .ok s1 => (s1, [])
  | .sweepOp tx p previousSweep now =>
    match sweep env now s tx p previousSweep with
    | .error _ => (s, [])
    | .ok (s1, credits) => (s1, credits)

/-- Run a sequence of operations, concatenating the credit logs. -/
def runOps (env : Env) (s : BridgeState) : List Op → BridgeState × List (DepKey × Nat × Nat)
  | [] => (s, [])
  | op :: rest =>
    let r := applyOp env s op
    let r1 := runOps env r.1 rest
    (r1.1, r.2 ++ r1.2)

/-- Sum of the credited amounts of a `(key, depositor, amount)` list. -/
def sumAmounts (l : List (DepKey × Nat × Nat)) : Nat :=
  (l.map fun c => c.2.2).sum

/-!
Client-side deposit-sweep transaction assembler
(`assembleDepositSweepTransaction`, TypeScript).  Values are `BigNumber`s,
modelled as `Nat` inputs with the output value in `Int` (the
`sum(inputs) - fee` subtraction is signed BigNumber arithmetic).  The UTXO
structure assumes, per the function's documented precondition, that the
raw previous transaction attached to a UTXO is the one the UTXO points at,
so the UTXO's `value` is also the previous output's value used by the
signing checks.
-/

/-- A client-side unspent transaction output with the data the assembler
consumes: outpoint, value, and the classification / payment hash of its
locking script. -/
structure Utxo where
  txHash : Nat
  outputIndex : Nat
  value : Nat
  scriptKind : ScriptKind
  scriptPubKeyHash : Nat
deriving DecidableEq, Repr

/-- Client-side deposit data, restricted to the fields the assembler's
consistency checks read (`amount`, `walletPublicKeyHash`). -/
structure ClientDeposit where
  amount : Nat
  walletPublicKeyHash : Nat
deriving DecidableEq, Repr

/-- The wallet's signing key, abstracted to its public key identifier and
compression flag. -/
structure WalletKey where
  pubKey : Nat
  compressed : Bool
deriving DecidableEq, Repr

/-- Errors thrown by the assembler (each maps to one `throw new Error`). -/
inductive AsmError where
  /-- Require `There must be at least one deposit UTXO to sweep` -/
  | emptyUtxoSet
  /-- Require `Number of UTXOs must equal the number of deposit elements` -/
  | utxoDepositCountMismatch
  /-- Require `UTXO does not belong to the wallet` -/
  | utxoNotOwnedByWallet
  /-- Require `Unsupported UTXO script type` -/
  | unsupportedUtxoScriptType
  /-- Require `Mismatch between amount in deposit and deposit tx` -/
  | depositAmountMismatch
  /-- Require `Wallet public key does not correspond to wallet private key` -/
  | walletKeyMismatch
  /-- Require `Wallet public key must be compressed` -/
  | uncompressedWalletKey
deriving DecidableEq, Repr

/-- The assembled sweep transaction, at the level the claims speak about:
the ordered input outpoints and the output list, each output being its
script type, the public-key hash it pays, and its value. -/
structure AssembledTx where
  inputs : List (Nat × Nat)
  outputs : List (ScriptKind × Nat × Int)
deriving DecidableEq, Repr

/-- Embedding of `ownsUtxo`: the previous output script must be P2PKH or
P2WPKH and resolve to the address derived from the wallet key, i.e. pay
`HASH160(pubKey)`. -/
def ownsUtxo (hash160 : Nat → Nat) (k : WalletKey) (u : Utxo) : Bool :=
  (u.scriptKind = ScriptKind.p2pkh ∨ u.scriptKind = ScriptKind.p2wpkh) ∧
    u.scriptPubKeyHash = hash160 k.pubKey

/-- Embedding of `prepareDepositScript`'s validations: previous output value
must equal the deposit amount, the signing key's HASH160 must equal the
deposit's wallet public key hash, and the key must be compressed. -/
def prepareDepositScript (hash160 : Nat → Nat) (k : WalletKey)
    (d : ClientDeposit) (previousOutputValue : Nat) : Except AsmError Unit :=
  if previousOutputValue ≠ d.amount then .error .depositAmountMismatch
  else if hash160 k.pubKey ≠ d.walletPublicKeyHash then .error .walletKeyMismatch
  else if k.compressed = false then .error .uncompressedWalletKey
  else .ok ()

/-- The deposit-input signing loop: each deposit UTXO must be P2SH or P2WSH
and pass `prepareDepositScript`. -/
def signDepositInputs (hash160 : Nat → Nat) (k : WalletKey) :
    List (Utxo × ClientDeposit) → Except AsmError Unit
  | [] => .ok ()
  | (u, d) :: rest =>
    if u.scriptKind = ScriptKind.p2sh ∨ u.scriptKind = ScriptKind.p2wsh then
      match prepareDepositScript hash160 k d u.value with
      | .error e => .error e
      | .ok _ => signDepositInputs hash160 k rest
    else .error .unsupportedUtxoScriptType

/-- Embedding of `assembleDepositSweepTransaction`: inputs are the prior
main UTXO (when present) followed by the deposit UTXOs in caller order;
the single output pays the wallet's own key (P2WPKH when `witness`, else
P2PKH) with value `sum(inputs) - fee`. -/
def assembleDepositSweepTransaction (hash160 : Nat → Nat) (fee : Int)
    (walletKey : WalletKey) (witness : Bool) (utxos : List Utxo)
    (deposits : List ClientDeposit) (mainUtxo : Option Utxo) :
    Except AsmError AssembledTx :=
  if utxos.length < 1 then .error .emptyUtxoSet
  else if utxos.length ≠ deposits.length then .error .utxoDepositCountMismatch
  else
    let mainInputs : List (Nat × Nat) :=
      match mainUtxo with
      | some m => [(m.txHash, m.outputIndex)]
      | none => []
    let inputs := mainInputs ++ utxos.map fun u => (u.txHash, u.outputIndex)
    let totalInputValue : Nat :=
      (match mainUtxo with | some m => m.value | none => 0) +
        (utxos.map Utxo.value).sum
    let outputValue : Int := (totalInputValue : Int) - fee
    let outputKind := if witness then ScriptKind.p2wpkh else ScriptKind.p2pkh
    let result : AssembledTx :=
      { inputs := inputs
        outputs := [(outputKind, hash160 walletKey.pubKey, outputValue)] }
    let mainOk : Except AsmError Unit :=
      match mainUtxo with
      | some m => if ownsUtxo hash160 walletKey m then .ok () else .error .utxoNotOwnedByWallet
      | none => .ok ()
    match mainOk with
    | .error e => .error e
    | .ok _ =>
      match signDepositInputs hash160 walletKey (utxos.zip deposits) with
      | .error e => .error e
      | .ok _ => .ok result

/-- Mapping-read unfolding for a fresh `deposits` entry. -/
lemma getDeposit_cons (k0 : DepKey) (v : DepositInfo) (l : List (DepKey × DepositInfo))
    (k : DepKey) : getDeposit ((k0, v) :: l) k = if k = k0 then v else getDeposit l k := rfl

/-- Mapping-read unfolding for a fresh `sweeps` entry. -/
lemma getSweep_cons (w0 : Nat) (p : Nat × Nat) (l : List (Nat × Nat × Nat)) (w : Nat) :
    getSweep ((w0, p) :: l) w = if w = w0 then some p else getSweep l w := rfl

lemma sumAmounts_nil : sumAmounts [] = 0 := rfl

lemma sumAmounts_cons (c : DepKey × Nat × Nat) (l : List (DepKey × Nat × Nat)) :
    sumAmounts (c :: l) = c.2.2 + sumAmounts l := by
  simp [sumAmounts]

lemma sumAmounts_append (l1 l2 : List (DepKey × Nat × Nat)) :
    sumAmounts (l1 ++ l2) = sumAmounts l1 + sumAmounts l2 := by
  simp [sumAmounts]

/-- Lemma: `creditAmounts` succeeds exactly when no credited amount underflows, and
then subtracts the fee share from every entry. -/
lemma creditAmounts_ok_inv (feeShare : Nat) :
    ∀ (l out : List (DepKey × Nat × Nat)), creditAmounts feeShare l = .ok out →
      (∀ c ∈ l, feeShare ≤ c.2.2) ∧
        out = l.map fun c => (c.1, c.2.1, c.2.2 - feeShare) := by
  intro l
  induction l with
  | nil => intro out h; rw [creditAmounts] at h; cases h; simp
  | cons c rest ih =>
    intro out h
    obtain ⟨k, dep, a⟩ := c
    rw [creditAmounts] at h
    rw [checkedSub] at h
    by_cases hle : feeShare ≤ a
    · simp only [hle, if_pos] at h
      cases hrest : creditAmounts feeShare rest with
      | error e => rw [hrest] at h; cases h
      | ok rest1 =>
        rw [hrest] at h
        cases h
        obtain ⟨h1, h2⟩ := ih rest1 hrest
        refine ⟨?_, ?_⟩
        · intro c hc
          rcases List.mem_cons.mp hc with hc | hc
          · subst hc; exact hle
          · exact h1 c hc
        · simp [h2]
    · simp [hle] at h

/-- Lemma: `creditAmounts` fails with the underflow panic as soon as some credited
amount is below the fee share. -/
lemma creditAmounts_underflow (feeShare : Nat) :
    ∀ (l : List (DepKey × Nat × Nat)), (∃ c ∈ l, c.2.2 < feeShare) →
      creditAmounts feeShare l = .error .panicUnderflow := by
  intro l
  induction l with
  | nil => rintro ⟨c, hc, -⟩; cases hc
  | cons c rest ih =>
    rintro ⟨c0, hc0, hlt⟩
    obtain ⟨k, dep, a⟩ := c
    rw [creditAmounts, checkedSub]
    by_cases hle : feeShare ≤ a
    · simp only [hle, if_pos]
      rcases List.mem_cons.mp hc0 with hc | hc
      · subst hc; simp at hlt; omega
      · rw [ih ⟨c0, hc, hlt⟩]
    · simp [hle]

/-- Structural inversion of the inputs loop: on success the output credit
list extends the accumulator by the newly credited deposits, the
accumulated value adds the new amounts plus the previous-sweep output
value when the flag got set, the flag is monotone, each input contributes
exactly one credit or the single flag flip, and a non-trivial credit list
respects the array bound. -/
lemma processInputsGo_ok_shape (now : Nat) (prev : SweepInfo) (maxD : Nat) :
    ∀ (inputs : List TxInput) (deps : List (DepKey × DepositInfo)) (flag : Bool)
      (acc : Nat) (credits : List (DepKey × Nat × Nat)) (v : Nat)
      (out : List (DepKey × Nat × Nat)) (deps1 : List (DepKey × DepositInfo))
      (flagOut : Bool),
      processInputsGo now prev maxD deps flag acc credits inputs =
        .ok (v, out, deps1, flagOut) →
      ∃ ds, out = credits ++ ds ∧
        v = acc + sumAmounts ds +
          (if flag then 0 else if flagOut then prev.txOutputValue else 0) ∧
        (flag = true → flagOut = true) ∧
        ds.length + (if flag then 0 else if flagOut then 1 else 0) = inputs.length ∧
        (ds ≠ [] → out.length ≤ maxD) := by
  intro inputs
  induction inputs with
  | nil =>
    intro deps flag acc credits v out deps1 flagOut h
    rw [processInputsGo] at h
    cases h
    refine ⟨[], by simp, ?_, fun hf => hf, ?_, by simp⟩
    · cases flag <;> simp [sumAmounts]
    · cases flag <;> simp
  | cons i rest ih =>
    intro deps flag acc credits v out deps1 flagOut h
    simp only [processInputsGo] at h
    split at h
    case isTrue h1 =>
      split at h
      case isTrue h2 => simp at h
      case isFalse h2 =>
        split at h
        case isTrue h3 => simp at h
        case isFalse h3 =>
          obtain ⟨ds', hout, hv, hmono, hlen, hbound⟩ := ih _ _ _ _ _ _ _ _ h
          refine ⟨((i.txHash, i.txIndex), (getDeposit deps (i.txHash, i.txIndex)).depositor,
            (getDeposit deps (i.txHash, i.txIndex)).amount) :: ds', ?_, ?_, hmono, ?_, ?_⟩
          · rw [hout, List.append_assoc]; rfl
          · rw [sumAmounts_cons]
            simp only at hv ⊢
            omega
          · simp only [List.length_cons] at hlen ⊢
            omega
          · intro _
            by_cases hds : ds' = []
            · subst hds
              rw [hout]
              simp only [List.length_append, List.length_cons, List.length_nil]
              omega
            · exact hbound hds
    case isFalse h1 =>
      split at h
      case isTrue h4 =>
        obtain ⟨ds', hout, hv, hmono, hlen, hbound⟩ := ih _ _ _ _ _ _ _ _ h
        have hfo : flagOut = true := hmono rfl
        simp only [if_true] at hv hlen
        refine ⟨ds', hout, ?_, fun _ => hfo, ?_, hbound⟩
        · simp only [h4.1, hfo, if_true, Bool.false_eq_true, if_false]
          simp at hv
          omega
        · simp only [h4.1, hfo, if_true, Bool.false_eq_true, if_false, List.length_cons]
          simp at hlen
          omega
      case isFalse h4 => simp at h

/-- Registry evolution: the loop only ever sets `sweptAt` of records whose
`sweptAt` was zero; every other field and every other record is untouched. -/
lemma processInputsGo_ok_deps (now : Nat) (prev : SweepInfo) (maxD : Nat) :
    ∀ (inputs : List TxInput) (deps : List (DepKey × DepositInfo)) (flag : Bool)
      (acc : Nat) (credits : List (DepKey × Nat × Nat)) (v : Nat)
      (out : List (DepKey × Nat × Nat)) (deps1 : List (DepKey × DepositInfo))
      (flagOut : Bool),
      processInputsGo now prev maxD deps flag acc credits inputs =
        .ok (v, out, deps1, flagOut) →
      ∀ k, getDeposit deps1 k = getDeposit deps k ∨
        ((getDeposit deps k).sweptAt = 0 ∧
          getDeposit deps1 k = { getDeposit deps k with sweptAt := now }) := by
  intro inputs
  induction inputs with
  | nil =>
    intro deps flag acc credits v out deps1 flagOut h k
    rw [processInputsGo] at h
    cases h
    exact Or.inl rfl
  | cons i rest ih =>
    intro deps flag acc credits v out deps1 flagOut h k
    simp only [processInputsGo] at h
    split at h
    case isTrue h1 =>
      split at h
      case isTrue h2 => simp at h
      case isFalse h2 =>
        split at h
        case isTrue h3 => simp at h
        case isFalse h3 =>
          have step := ih _ _ _ _ _ _ _ _ h k
          rw [getDeposit_cons] at step
          by_cases hk : k = (i.txHash, i.txIndex)
          · subst hk
            simp only [if_pos] at step
            rcases step with step | ⟨hs0, step⟩
            · right
              refine ⟨by omega, step⟩
            · right
              refine ⟨by omega, ?_⟩
              rw [step]
          · simp only [hk, if_neg, if_false] at step
            exact step
    case isFalse h1 =>
      split at h
      case isTrue h4 => exact ih _ _ _ _ _ _ _ _ h k
      case isFalse h4 => simp at h

/-- On success with a nonzero timestamp, every newly credited entry records
an unswept revealed deposit of the initial registry, carries its
depositor and amount, and is marked swept (`sweptAt = now`) in the final
registry. -/
lemma processInputsGo_ok_credits (now : Nat) (prev : SweepInfo) (maxD : Nat)
    (hnow : now ≠ 0) :
    ∀ (inputs : List TxInput) (deps : List (DepKey × DepositInfo)) (flag : Bool)
      (acc : Nat) (credits : List (DepKey × Nat × Nat)) (v : Nat)
      (out : List (DepKey × Nat × Nat)) (deps1 : List (DepKey × DepositInfo))
      (flagOut : Bool),
      processInputsGo now prev maxD deps flag acc credits inputs =
        .ok (v, out, deps1, flagOut) →
      ∀ c ∈ out, c ∈ credits ∨
        ((getDeposit deps c.1).revealedAt ≠ 0 ∧
          (getDeposit deps c.1).sweptAt = 0 ∧
          c.2.1 = (getDeposit deps c.1).depositor ∧
          c.2.2 = (getDeposit deps c.1).amount ∧
          (getDeposit deps1 c.1).sweptAt = now) := by
  intro inputs
  induction inputs with
  | nil =>
    intro deps flag acc credits v out deps1 flagOut h c hc
    rw [processInputsGo] at h
    cases h
    exact Or.inl hc
  | cons i rest ih =>
    intro deps flag acc credits v out deps1 flagOut h c hc
    simp only [processInputsGo] at h
    split at h
    case isTrue h1 =>
      split at h
      case isTrue h2 => simp at h
      case isFalse h2 =>
        split at h
        case isTrue h3 => simp at h
        case isFalse h3 =>
          have hdset : (getDeposit
              (((i.txHash, i.txIndex),
                { getDeposit deps (i.txHash, i.txIndex) with sweptAt := now }) :: deps)
              (i.txHash, i.txIndex)).sweptAt = now := by
            rw [getDeposit_cons]
            simp
          rcases ih _ _ _ _ _ _ _ _ h c hc with hmem | props
          · rcases List.mem_append.mp hmem with hmem | hmem
            · exact Or.inl hmem
            · right
              simp only [List.mem_singleton] at hmem
              subst hmem
              refine ⟨h1, ?_, rfl, rfl, ?_⟩
              · show (getDeposit deps (i.txHash, i.txIndex)).sweptAt = 0
                omega
              rcases processInputsGo_ok_deps now prev maxD rest _ _ _ _ _ _ _ _ h
                  (i.txHash, i.txIndex) with hsame | ⟨hz, _⟩
              · rw [hsame]
                exact hdset
              · rw [hdset] at hz
                exact absurd hz hnow
          · right
            obtain ⟨p1, p2, p3, p4, p5⟩ := props
            by_cases hk : c.1 = (i.txHash, i.txIndex)
            · rw [hk, getDeposit_cons] at p2
              simp at p2
              exact absurd p2 hnow
            · rw [getDeposit_cons] at p1 p2 p3 p4
              simp only [hk, if_neg, if_false] at p1 p2 p3 p4
              exact ⟨p1, p2, p3, p4, p5⟩
    case isFalse h1 =>
      split at h
      case isTrue h4 => exact ih _ _ _ _ _ _ _ _ h c hc
      case isFalse h4 => simp at h

/-- With a nonzero timestamp, credited keys are pairwise distinct: crediting
a deposit marks it swept, and the `sweptAt == 0` require rejects a second
credit of the same key.  The invariant is that keys already credited are
marked swept in the current registry. -/
lemma processInputsGo_ok_nodup (now : Nat) (prev : SweepInfo) (maxD : Nat)
    (hnow : now ≠ 0) :
    ∀ (inputs : List TxInput) (deps : List (DepKey × DepositInfo)) (flag : Bool)
      (acc : Nat) (credits : List (DepKey × Nat × Nat)) (v : Nat)
      (out : List (DepKey × Nat × Nat)) (deps1 : List (DepKey × DepositInfo))
      (flagOut : Bool),
      processInputsGo now prev maxD deps flag acc credits inputs =
        .ok (v, out, deps1, flagOut) →
      (∀ c ∈ credits, (getDeposit deps c.1).sweptAt ≠ 0) →
      (credits.map fun c => c.1).Nodup →
      (out.map fun c => c.1).Nodup := by
  intro inputs
  induction inputs with
  | nil =>
    intro deps flag acc credits v out deps1 flagOut h _ hnodup
    rw [processInputsGo] at h
    cases h
    exact hnodup
  | cons i rest ih =>
    intro deps flag acc credits v out deps1 flagOut h hswept hnodup
    simp only [processInputsGo] at h
    split at h
    case isTrue h1 =>
      split at h
      case isTrue h2 => simp at h
      case isFalse h2 =>
        split at h
        case isTrue h3 => simp at h
        case isFalse h3 =>
          refine ih _ _ _ _ _ _ _ _ h ?_ ?_
          · intro c hc
            rw [getDeposit_cons]
            by_cases hk : c.1 = (i.txHash, i.txIndex)
            · simp [hk, hnow]
            · simp only [hk, if_neg, if_false]
              rcases List.mem_append.mp hc with hc | hc
              · exact hswept c hc
              · simp only [List.mem_singleton] at hc
                subst hc
                simp at hk
          · rw [List.map_append, List.map_singleton]
            refine List.Nodup.append hnodup (List.nodup_singleton _) ?_
            intro k hk1 hk2
            simp only [List.mem_singleton] at hk2
            subst hk2
            rcases List.mem_map.mp hk1 with ⟨c, hc, hck⟩
            have := hswept c hc
            rw [hck] at this
            exact h2 this
    case isFalse h1 =>
      split at h
      case isTrue h4 => exact ih _ _ _ _ _ _ _ _ h hswept hnodup
      case isFalse h4 => simp at h

/-- With a nonzero timestamp, success of the loop implies every input that
refers to a revealed deposit of the entry registry was unswept there. -/
lemma processInputsGo_ok_unswept (now : Nat) (prev : SweepInfo) (maxD : Nat) :
    ∀ (inputs : List TxInput) (deps : List (DepKey × DepositInfo)) (flag : Bool)
      (acc : Nat) (credits : List (DepKey × Nat × Nat)) (v : Nat)
      (out : List (DepKey × Nat × Nat)) (deps1 : List (DepKey × DepositInfo))
      (flagOut : Bool),
      processInputsGo now prev maxD deps flag acc credits inputs =
        .ok (v, out, deps1, flagOut) →
      ∀ i ∈ inputs, (getDeposit deps (i.txHash, i.txIndex)).revealedAt ≠ 0 →
        (getDeposit deps (i.txHash, i.txIndex)).sweptAt = 0 := by
  intro inputs
  induction inputs with
  | nil =>
    intro deps flag acc credits v out deps1 flagOut h i hi
    cases hi
  | cons i0 rest ih =>
    intro deps flag acc credits v out deps1 flagOut h i hi hrev
    simp only [processInputsGo] at h
    split at h
    case isTrue h1 =>
      split at h
      case isTrue h2 => simp at h
      case isFalse h2 =>
        split at h
        case isTrue h3 => simp at h
        case isFalse h3 =>
          rcases List.mem_cons.mp hi with hi | hi
          · subst hi
            omega
          · by_cases hk : (i.txHash, i.txIndex) = ((i0.txHash, i0.txIndex) : DepKey)
            · rw [hk]
              omega
            · have step := ih _ _ _ _ _ _ _ _ h i hi
              rw [getDeposit_cons] at step
              simp only [hk, if_neg, if_false] at step
              exact step hrev
    case isFalse h1 =>
      split at h
      case isTrue h4 =>
        rcases List.mem_cons.mp hi with hi | hi
        · subst hi
          exact absurd hrev h1
        · exact ih _ _ _ _ _ _ _ _ h i hi hrev
      case isFalse h4 => simp at h

/-- The loop can only fail with the already-swept require, the array bounds
panic, or the unknown-input revert. -/
lemma processInputsGo_error_mem (now : Nat) (prev : SweepInfo) (maxD : Nat) :
    ∀ (inputs : List TxInput) (deps : List (DepKey × DepositInfo)) (flag : Bool)
      (acc : Nat) (credits : List (DepKey × Nat × Nat)) (e : BridgeError),
      processInputsGo now prev maxD deps flag acc credits inputs = .error e →
      e = .depositAlreadySwept ∨ e = .panicIndexOutOfBounds ∨ e = .unknownInputType := by
  intro inputs
  induction inputs with
  | nil =>
    intro deps flag acc credits e h
    rw [processInputsGo] at h
    cases h
  | cons i rest ih =>
    intro deps flag acc credits e h
    simp only [processInputsGo] at h
    split at h
    case isTrue h1 =>
      split at h
      case isTrue h2 => cases h; exact Or.inl rfl
      case isFalse h2 =>
        split at h
        case isTrue h3 => cases h; exact Or.inr (Or.inl rfl)
        case isFalse h3 => exact ih _ _ _ _ _ h
    case isFalse h1 =>
      split at h
      case isTrue h4 => exact ih _ _ _ _ _ h
      case isFalse h4 => cases h; exact Or.inr (Or.inr rfl)

/-- The previous-sweep flag is set during the loop only by consuming an
input whose previous transaction hash equals the claimed previous sweep's
transaction hash. -/
lemma processInputsGo_ok_flip (now : Nat) (prev : SweepInfo) (maxD : Nat) :
    ∀ (inputs : List TxInput) (deps : List (DepKey × DepositInfo)) (flag : Bool)
      (acc : Nat) (credits : List (DepKey × Nat × Nat)) (v : Nat)
      (out : List (DepKey × Nat × Nat)) (deps1 : List (DepKey × DepositInfo))
      (flagOut : Bool),
      processInputsGo now prev maxD deps flag acc credits inputs =
        .ok (v, out, deps1, flagOut) →
      flagOut = true → flag = true ∨ ∃ i ∈ inputs, i.txHash = prev.txHash := by
  intro inputs
  induction inputs with
  | nil =>
    intro deps flag acc credits v out deps1 flagOut h hf
    rw [processInputsGo] at h
    cases h
    exact Or.inl hf
  | cons i rest ih =>
    intro deps flag acc credits v out deps1 flagOut h hf
    simp only [processInputsGo] at h
    split at h
    case isTrue h1 =>
      split at h
      case isTrue h2 => simp at h
      case isFalse h2 =>
        split at h
        case isTrue h3 => simp at h
        case isFalse h3 =>
          rcases ih _ _ _ _ _ _ _ _ h hf with hl | ⟨j, hj, hjh⟩
          · exact Or.inl hl
          · exact Or.inr ⟨j, List.mem_cons_of_mem _ hj, hjh⟩
    case isFalse h1 =>
      split at h
      case isTrue h4 => exact Or.inr ⟨i, List.mem_cons_self _ _, h4.2.symm⟩
      case isFalse h4 => simp at h

/-- Inversion of `processSweepTxInputs`: success comes from a successful
loop run that ended with the previous-sweep flag set, over the array bound
`inputsCount` (first sweep) or `inputsCount - 1`. -/
lemma processSweepTxInputs_ok_inv (now : Nat) (deps : List (DepKey × DepositInfo))
    (inputs : List TxInput) (prev : SweepInfo) (v : Nat)
    (credits : List (DepKey × Nat × Nat)) (deps1 : List (DepKey × DepositInfo))
    (h : processSweepTxInputs now deps inputs prev = .ok (v, credits, deps1)) :
    processInputsGo now prev
        (if prev.txHash = 0 then inputs.length else inputs.length - 1)
        deps (decide (prev.txHash = 0)) 0 [] inputs = .ok (v, credits, deps1, true) ∧
      (prev.txHash ≠ 0 → inputs.length ≠ 0) := by
  rw [processSweepTxInputs] at h
  by_cases hp : prev.txHash = 0
  · simp only [hp, if_pos, decide_True, if_true] at h ⊢
    cases hgo : processInputsGo now prev inputs.length deps true 0 [] inputs with
    | error e => rw [hgo] at h; simp at h
    | ok r =>
      obtain ⟨v0, cr0, dp0, fl0⟩ := r
      rw [hgo] at h
      simp only at h
      cases fl0 with
      | false => simp at h
      | true =>
        simp only [if_pos] at h
        cases h
        exact ⟨rfl, fun hc => absurd rfl hc⟩
  · simp only [hp, if_neg, if_false, decide_False] at h ⊢
    by_cases hlen : inputs.length = 0
    · simp [hlen] at h
    · simp only [hlen, if_neg, if_false] at h
      cases hgo : processInputsGo now prev (inputs.length - 1) deps false 0 [] inputs with
      | error e => rw [hgo] at h; simp at h
      | ok r =>
        obtain ⟨v0, cr0, dp0, fl0⟩ := r
        rw [hgo] at h
        simp only at h
        cases fl0 with
        | false => simp at h
        | true =>
          simp only [if_pos] at h
          cases h
          exact ⟨rfl, fun _ => hlen⟩

/-- Facts about a successful `processSweepTxInputs` run: the credit list
fills the allocated array exactly, the accumulated input value is the sum
of credited amounts plus the previous-sweep output value on a non-first
sweep, and a non-first sweep consumed an input carrying the previous
sweep's transaction hash. -/
lemma processSweepTxInputs_ok_facts (now : Nat) (deps : List (DepKey × DepositInfo))
    (inputs : List TxInput) (prev : SweepInfo) (v : Nat)
    (credits : List (DepKey × Nat × Nat)) (deps1 : List (DepKey × DepositInfo))
    (h : processSweepTxInputs now deps inputs prev = .ok (v, credits, deps1)) :
    credits.length = (if prev.txHash = 0 then inputs.length else inputs.length - 1) ∧
      v = sumAmounts credits + (if prev.txHash = 0 then 0 else prev.txOutputValue) ∧
      (prev.txHash ≠ 0 → (∃ i ∈ inputs, i.txHash = prev.txHash) ∧ inputs.length ≠ 0) := by
  obtain ⟨hgo, hlen0⟩ := processSweepTxInputs_ok_inv now deps inputs prev v credits deps1 h
  obtain ⟨ds, hout, hv, -, hlen, -⟩ :=
    processInputsGo_ok_shape now prev _ inputs _ _ _ _ _ _ _ _ hgo
  rw [List.nil_append] at hout
  subst hout
  by_cases hp : prev.txHash = 0
  · simp only [hp, decide_True, if_true, if_pos] at hgo hv hlen ⊢
    simp at hv hlen
    refine ⟨by omega, by omega, fun hc => absurd rfl hc⟩
  · simp only [hp, decide_False, if_neg, if_false] at hgo hv hlen ⊢
    simp at hv hlen
    refine ⟨by omega, by omega, fun _ => ⟨?_, hlen0 hp⟩⟩
    rcases processInputsGo_ok_flip now prev _ inputs _ _ _ _ _ _ _ _ hgo rfl with hc | hex
    · cases hc
    · exact hex

/-- The dedicated `Previous sweep output not present` require is dead code:
on a non-first sweep the `depositors` array has one slot fewer than the
input count, so a run in which no input matches the previous sweep
overflows the array (bounds panic) before the final require is reached. -/
lemma processSweepTxInputs_ne_notPresent (now : Nat)
    (deps : List (DepKey × DepositInfo)) (inputs : List TxInput)
    (prev : SweepInfo) :
    processSweepTxInputs now deps inputs prev ≠
      .error .previousSweepOutputNotPresent := by
  intro h
  rw [processSweepTxInputs] at h
  by_cases hp : prev.txHash = 0
  · simp only [hp, if_pos, if_true] at h
    cases hgo : processInputsGo now prev inputs.length deps true 0 [] inputs with
    | error e =>
      rw [hgo] at h
      cases h
      rcases processInputsGo_error_mem now prev _ inputs _ _ _ _ _ hgo with h | h | h <;> cases h
    | ok r =>
      obtain ⟨v0, cr0, dp0, fl0⟩ := r
      rw [hgo] at h
      cases fl0 with
      | true => simp at h
      | false =>
        obtain ⟨ds, hout, -, hmono, -, -⟩ :=
          processInputsGo_ok_shape now prev _ inputs _ _ _ _ _ _ _ _ hgo
        exact Bool.noConfusion (hmono rfl)
  · simp only [hp, if_neg, if_false] at h
    by_cases hlen : inputs.length = 0
    · simp [hlen] at h
    · simp only [hlen, if_neg, if_false] at h
      cases hgo : processInputsGo now prev (inputs.length - 1) deps false 0 [] inputs with
      | error e =>
        rw [hgo] at h
        cases h
        rcases processInputsGo_error_mem now prev _ inputs _ _ _ _ _ hgo with h | h | h <;> cases h
      | ok r =>
        obtain ⟨v0, cr0, dp0, fl0⟩ := r
        rw [hgo] at h
        cases fl0 with
        | true => simp at h
        | false =>
          obtain ⟨ds, hout, -, -, hlen1, hbound⟩ :=
            processInputsGo_ok_shape now prev _ inputs _ _ _ _ _ _ _ _ hgo
          rw [List.nil_append] at hout
          subst hout
          simp at hlen1
          have hds : cr0 ≠ [] := by
            intro hnil
            subst hnil
            simp at hlen1
            omega
          have := hbound hds
          omega

/-- On a non-empty input vector, `processSweepTxInputs` can only fail with
the already-swept require, the array bounds panic, or the unknown-input
revert. -/
lemma processSweepTxInputs_error_mem (now : Nat)
    (deps : List (DepKey × DepositInfo)) (inputs : List TxInput)
    (prev : SweepInfo) (e : BridgeError) (hne : inputs ≠ [])
    (h : processSweepTxInputs now deps inputs prev = .error e) :
    e = .depositAlreadySwept ∨ e = .panicIndexOutOfBounds ∨ e = .unknownInputType := by
  have h0 := h
  rw [processSweepTxInputs] at h
  by_cases hp : prev.txHash = 0
  · simp only [hp, if_pos, if_true] at h
    cases hgo : processInputsGo now prev inputs.length deps true 0 [] inputs with
    | error e1 =>
      rw [hgo] at h
      cases h
      exact processInputsGo_error_mem now prev _ inputs _ _ _ _ _ hgo
    | ok r =>
      obtain ⟨v0, cr0, dp0, fl0⟩ := r
      rw [hgo] at h
      cases fl0 with
      | true => simp at h
      | false =>
        simp only [Bool.false_eq_true, if_false] at h
        cases h
        exact absurd h0 (processSweepTxInputs_ne_notPresent now deps inputs prev)
  · simp only [hp, if_neg, if_false] at h
    by_cases hlen : inputs.length = 0
    · exact absurd (List.length_eq_zero.mp hlen) hne
    · simp only [hlen, if_neg, if_false] at h
      cases hgo : processInputsGo now prev (inputs.length - 1) deps false 0 [] inputs with
      | error e1 =>
        rw [hgo] at h
        cases h
        exact processInputsGo_error_mem now prev _ inputs _ _ _ _ _ hgo
      | ok r =>
        obtain ⟨v0, cr0, dp0, fl0⟩ := r
        rw [hgo] at h
        cases fl0 with
        | true => simp at h
        | false =>
          simp only [Bool.false_eq_true, if_false] at h
          cases h
          exact absurd h0 (processSweepTxInputs_ne_notPresent now deps inputs prev)

/-- Full inversion of a successful `sweep` call into its stages. -/
lemma sweep_ok_inv (env : Env) (now : Nat) (s : BridgeState) (tx : TxInfo)
    (p : SweepProof) (prev : SweepInfo)
    (r : BridgeState × List (DepKey × Nat × Nat))
    (h : sweep env now s tx p prev = .ok r) :
    ∃ w outVal rp inVal raw deps1 fee credited,
      tx.inputs ≠ [] ∧ tx.outputs ≠ [] ∧
      checkProofFromTxHash env (env.hashTx tx) p = .ok () ∧
      processSweepTxOutput tx.outputs = .ok (w, outVal) ∧
      resolvePreviousSweep s w prev = .ok rp ∧
      processSweepTxInputs now s.deposits tx.inputs rp = .ok (inVal, raw, deps1) ∧
      checkedSub inVal outVal = .ok fee ∧
      raw.length ≠ 0 ∧
      creditAmounts (fee / raw.length) raw = .ok credited ∧
      r = ({ s with deposits := deps1,
                    sweeps := (w, env.hashTx tx, outVal) :: s.sweeps }, credited) := by
  rw [sweep] at h
  by_cases hi : tx.inputs = []
  · simp [hi] at h
  · simp only [hi, if_neg, if_false] at h
    by_cases ho : tx.outputs = []
    · simp [ho] at h
    · simp only [ho, if_neg, if_false] at h
      cases hchk : checkProofFromTxHash env (env.hashTx tx) p with
      | error e => rw [hchk] at h; simp at h
      | ok u =>
        obtain ⟨⟩ := u
        rw [hchk] at h
        simp only at h
        cases hout : processSweepTxOutput tx.outputs with
        | error e => rw [hout] at h; simp at h
        | ok r1 =>
          obtain ⟨w, outVal⟩ := r1
          rw [hout] at h
          simp only at h
          cases hres : resolvePreviousSweep s w prev with
          | error e => rw [hres] at h; simp at h
          | ok rp =>
            rw [hres] at h
            simp only at h
            cases hin : processSweepTxInputs now s.deposits tx.inputs rp with
            | error e => rw [hin] at h; simp at h
            | ok r2 =>
              obtain ⟨inVal, raw, deps1⟩ := r2
              rw [hin] at h
              simp only at h
              cases hfee : checkedSub inVal outVal with
              | error e => rw [hfee] at h; simp at h
              | ok fee =>
                rw [hfee] at h
                simp only at h
                by_cases hn : raw.length = 0
                · simp [hn] at h
                · simp only [hn, if_neg, if_false] at h
                  cases hcr : creditAmounts (fee / raw.length) raw with
                  | error e => rw [hcr] at h; simp at h
                  | ok credited =>
                    rw [hcr] at h
                    simp only at h
                    cases h
                    exact ⟨w, outVal, rp, inVal, raw, deps1, fee, credited,
                      hi, ho, rfl, rfl, hres, hin, hfee, hn, hcr, rfl⟩

/-- Once the proof, output and previous-sweep stages are fixed, `sweep` is
the composition of the remaining stages. -/
lemma sweep_eq_stage (env : Env) (now : Nat) (s : BridgeState) (tx : TxInfo)
    (p : SweepProof) (prev : SweepInfo) (w outVal : Nat) (rp : SweepInfo)
    (hi : tx.inputs ≠ []) (ho : tx.outputs ≠ [])
    (hchk : checkProofFromTxHash env (env.hashTx tx) p = .ok ())
    (hout : processSweepTxOutput tx.outputs = .ok (w, outVal))
    (hres : resolvePreviousSweep s w prev = .ok rp) :
    sweep env now s tx p prev =
      match processSweepTxInputs now s.deposits tx.inputs rp with
      | .error e => .error e
      | .ok (inVal, raw, deps1) =>
        match checkedSub inVal outVal with
        | .error e => .error e
        | .ok fee =>
          if raw.length = 0 then .error .panicDivisionByZero
          else
            match creditAmounts (fee / raw.length) raw with
            | .error e => .error e
            | .ok credited =>
              .ok ({ s with deposits := deps1,
                            sweeps := (w, env.hashTx tx, outVal) :: s.sweeps },
                   credited) := by
  rw [sweep]
  simp only [hi, ho, if_neg, if_false, hchk, hout, hres]

/-- Forward evaluation of a valid first reveal: the record is created with
the revealed depositor and vault, the funding output's value, and the
reveal timestamp. -/
lemma revealDeposit_ok_build (env : Env) (now : Nat) (s : BridgeState)
    (fundingTx : TxInfo) (r : RevealInfo) (o : TxOutput)
    (hv : r.vault = 0 ∨ r.vault ∈ s.trustedVaults)
    (hout : fundingTx.outputs.get? r.fundingOutputIndex = some o)
    (hscript :
      (scriptHashLength o.scriptKind = 20 ∧
        o.scriptHash = env.scriptHash160 (expectedScript r)) ∨
      (scriptHashLength o.scriptKind = 32 ∧
        o.scriptHash = env.scriptHash256 (expectedScript r)))
    (hrev : (getDeposit s.deposits
      (env.hashTx fundingTx, r.fundingOutputIndex)).revealedAt = 0) :
    revealDeposit env now s fundingTx r =
      .ok { s with deposits :=
        ((env.hashTx fundingTx, r.fundingOutputIndex),
          { depositor := r.depositor
            amount := o.value
            revealedAt := now
            vault := r.vault
            sweptAt := (getDeposit s.deposits
              (env.hashTx fundingTx, r.fundingOutputIndex)).sweptAt }) :: s.deposits } := by
  rw [revealDeposit]
  simp only [hv, not_true, if_neg, if_false, hout]
  rcases hscript with ⟨h20, hh⟩ | ⟨h32, hh⟩
  · simp only [h20, if_pos, hh, if_true, hrev]
    simp
  · have h20 : scriptHashLength o.scriptKind ≠ 20 := by omega
    simp only [h20, if_neg, if_false, h32, if_pos, hh, if_true, hrev]
    simp

/-- A reveal for an outpoint whose record exists (nonzero `revealedAt`)
fails with the duplicate-reveal require, whatever the other data. -/
lemma revealDeposit_duplicate (env : Env) (now : Nat) (s : BridgeState)
    (fundingTx : TxInfo) (r : RevealInfo) (o : TxOutput)
    (hv : r.vault = 0 ∨ r.vault ∈ s.trustedVaults)
    (hout : fundingTx.outputs.get? r.fundingOutputIndex = some o)
    (hscript :
      (scriptHashLength o.scriptKind = 20 ∧
        o.scriptHash = env.scriptHash160 (expectedScript r)) ∨
      (scriptHashLength o.scriptKind = 32 ∧
        o.scriptHash = env.scriptHash256 (expectedScript r)))
    (hrev : (getDeposit s.deposits
      (env.hashTx fundingTx, r.fundingOutputIndex)).revealedAt ≠ 0) :
    revealDeposit env now s fundingTx r = .error .depositAlreadyRevealed := by
  rw [revealDeposit]
  simp only [hv, not_true, if_neg, if_false, hout]
  rcases hscript with ⟨h20, hh⟩ | ⟨h32, hh⟩
  · simp only [h20, if_pos, hh, if_true, hrev]
    simp [hrev]
  · have h20 : scriptHashLength o.scriptKind ≠ 20 := by omega
    simp only [h20, if_neg, if_false, h32, if_pos, hh, if_true, hrev]
    simp [hrev]

/-- Inversion of a successful reveal: the vault was admissible, the funding
output existed with a matching script hash, the record did not exist, and
the new state extends the registry with exactly the new record. -/
lemma revealDeposit_ok_inv (env : Env) (now : Nat) (s : BridgeState)
    (fundingTx : TxInfo) (r : RevealInfo) (s1 : BridgeState)
    (h : revealDeposit env now s fundingTx r = .ok s1) :
    ∃ o, fundingTx.outputs.get? r.fundingOutputIndex = some o ∧
      (r.vault = 0 ∨ r.vault ∈ s.trustedVaults) ∧
      (getDeposit s.deposits
        (env.hashTx fundingTx, r.fundingOutputIndex)).revealedAt = 0 ∧
      s1 = { s with deposits :=
        ((env.hashTx fundingTx, r.fundingOutputIndex),
          { depositor := r.depositor
            amount := o.value
            revealedAt := now
            vault := r.vault
            sweptAt := (getDeposit s.deposits
              (env.hashTx fundingTx, r.fundingOutputIndex)).sweptAt }) :: s.deposits } := by
  rw [revealDeposit] at h
  by_cases hv : r.vault = 0 ∨ r.vault ∈ s.trustedVaults
  · simp only [hv, not_true, if_neg, if_false] at h
    cases hout : fundingTx.outputs.get? r.fundingOutputIndex with
    | none => rw [hout] at h; simp at h
    | some o =>
      rw [hout] at h
      simp only at h
      by_cases h20 : scriptHashLength o.scriptKind = 20
      · by_cases hh : o.scriptHash = env.scriptHash160 (expectedScript r)
        · simp only [h20, if_pos, hh, if_true] at h
          by_cases hrev : (getDeposit s.deposits
              (env.hashTx fundingTx, r.fundingOutputIndex)).revealedAt ≠ 0
          · simp [hrev] at h
          · simp only [hrev, if_neg, if_false] at h
            cases h
            exact ⟨o, rfl, hv, by omega, rfl⟩
        · simp [h20, hh] at h
      · by_cases h32 : scriptHashLength o.scriptKind = 32
        · by_cases hh : o.scriptHash = env.scriptHash256 (expectedScript r)
          · simp only [h20, if_neg, if_false, h32, if_pos, hh, if_true] at h
            by_cases hrev : (getDeposit s.deposits
                (env.hashTx fundingTx, r.fundingOutputIndex)).revealedAt ≠ 0
            · simp [hrev] at h
            · simp only [hrev, if_neg, if_false] at h
              cases h
              exact ⟨o, rfl, hv, by omega, rfl⟩
          · simp [h20, h32, hh] at h
        · simp [h20, h32] at h
  · simp [hv] at h

/-- Registry evolution across a successful sweep: only `sweptAt` fields of
previously unswept records change, and they change to `now`. -/
lemma sweep_ok_deps_evolution (env : Env) (now : Nat) (s : BridgeState)
    (tx : TxInfo) (p : SweepProof) (prev : SweepInfo) (s1 : BridgeState)
    (credited : List (DepKey × Nat × Nat))
    (h : sweep env now s tx p prev = .ok (s1, credited)) :
    ∀ k, getDeposit s1.deposits k = getDeposit s.deposits k ∨
      ((getDeposit s.deposits k).sweptAt = 0 ∧
        getDeposit s1.deposits k = { getDeposit s.deposits k with sweptAt := now }) := by
  obtain ⟨w, outVal, rp, inVal, raw, deps1, fee, credited1, -, -, -, -, -, hin, -, -, -, hr⟩ :=
    sweep_ok_inv env now s tx p prev _ h
  obtain ⟨hgo, -⟩ := processSweepTxInputs_ok_inv now s.deposits tx.inputs rp _ _ _ hin
  intro k
  have := processInputsGo_ok_deps now rp _ tx.inputs _ _ _ _ _ _ _ _ hgo k
  cases hr
  exact this

/-- Credit facts across a successful sweep with a nonzero timestamp: every
credited key was a revealed, unswept deposit before the call, is marked
swept (`sweptAt = now`) after, and the credited keys are pairwise
distinct. -/
lemma sweep_ok_credited_facts (env : Env) (now : Nat) (s : BridgeState)
    (tx : TxInfo) (p : SweepProof) (prev : SweepInfo) (s1 : BridgeState)
    (credited : List (DepKey × Nat × Nat)) (hnow : now ≠ 0)
    (h : sweep env now s tx p prev = .ok (s1, credited)) :
    (∀ c ∈ credited,
      (getDeposit s.deposits c.1).revealedAt ≠ 0 ∧
      (getDeposit s.deposits c.1).sweptAt = 0 ∧
      (getDeposit s1.deposits c.1).sweptAt = now) ∧
    (credited.map fun c => c.1).Nodup := by
  obtain ⟨w, outVal, rp, inVal, raw, deps1, fee, credited1, -, -, -, -, -, hin, -, -, hcr, hr⟩ :=
    sweep_ok_inv env now s tx p prev _ h
  obtain ⟨hgo, -⟩ := processSweepTxInputs_ok_inv now s.deposits tx.inputs rp _ _ _ hin
  obtain ⟨-, hmap⟩ := creditAmounts_ok_inv _ _ _ hcr
  have hfst : ∀ c ∈ credited1, ∃ c0 ∈ raw, c0.1 = c.1 := by
    intro c hc
    rw [hmap] at hc
    rcases List.mem_map.mp hc with ⟨c0, hc0, hce⟩
    exact ⟨c0, hc0, by rw [← hce]⟩
  cases hr
  constructor
  · intro c hc
    obtain ⟨c0, hc0, hck⟩ := hfst c hc
    have := processInputsGo_ok_credits now rp _ hnow tx.inputs _ _ _ _ _ _ _ _ hgo c0 hc0
    rcases this with hmem | props
    · cases hmem
    · rw [← hck]
      exact ⟨props.1, props.2.1, props.2.2.2.2⟩
  · have hkeys : (credited.map fun c => c.1) = raw.map fun c => c.1 := by
      rw [hmap, List.map_map]
      rfl
    rw [hkeys]
    exact processInputsGo_ok_nodup now rp _ hnow tx.inputs _ _ _ _ _ _ _ _ hgo
      (by intro c hc; cases hc) (by simp)

/-- A reveal never changes any record's `sweptAt`. -/
lemma revealDeposit_sweptAt (env : Env) (now : Nat) (s : BridgeState)
    (fundingTx : TxInfo) (r : RevealInfo) (s1 : BridgeState)
    (h : revealDeposit env now s fundingTx r = .ok s1) :
    ∀ k, (getDeposit s1.deposits k).sweptAt = (getDeposit s.deposits k).sweptAt := by
  obtain ⟨o, -, -, -, hs1⟩ := revealDeposit_ok_inv env now s fundingTx r s1 h
  intro k
  subst hs1
  show (getDeposit (_ :: s.deposits) k).sweptAt = _
  rw [getDeposit_cons]
  by_cases hk : k = (env.hashTx fundingTx, r.fundingOutputIndex)
  · simp only [hk, if_pos]
  · simp only [hk, if_neg, if_false]

/-- A nonzero `sweptAt` survives any operation unchanged (reverted calls
leave the state untouched; successful ones only set zero `sweptAt`s). -/
lemma applyOp_sweptAt_mono (env : Env) (s : BridgeState) (op : Op) (k : DepKey)
    (hk : (getDeposit s.deposits k).sweptAt ≠ 0) :
    (getDeposit (applyOp env s op).1.deposits k).sweptAt =
      (getDeposit s.deposits k).sweptAt := by
  cases op with
  | revealOp fundingTx r now =>
    rw [applyOp]
    cases hrv : revealDeposit env now s fundingTx r with
    | error e => rfl
    | ok s1 => exact revealDeposit_sweptAt env now s fundingTx r s1 hrv k
  | sweepOp tx p prev now =>
    rw [applyOp]
    cases hsw : sweep env now s tx p prev with
    | error e => rfl
    | ok r1 =>
      obtain ⟨s1, credits⟩ := r1
      rcases sweep_ok_deps_evolution env now s tx p prev s1 credits hsw k with
        hsame | ⟨h0, -⟩
      · rw [hsame]
      · exact absurd h0 hk

/-- Credits of one operation with a nonzero timestamp: each credited key
was unswept before and is swept after, and credited keys are distinct. -/
lemma applyOp_credits_facts (env : Env) (s : BridgeState) (op : Op)
    (hnow : op.now ≠ 0) :
    (∀ c ∈ (applyOp env s op).2,
      (getDeposit s.deposits c.1).sweptAt = 0 ∧
      (getDeposit (applyOp env s op).1.deposits c.1).sweptAt ≠ 0) ∧
    ((applyOp env s op).2.map fun c => c.1).Nodup := by
  cases op with
  | revealOp fundingTx r now =>
    rw [applyOp]
    cases revealDeposit env now s fundingTx r with
    | error e => exact ⟨(by intro c hc; cases hc), by simp⟩
    | ok s1 => exact ⟨(by intro c hc; cases hc), by simp⟩
  | sweepOp tx p prev now =>
    rw [applyOp]
    cases hsw : sweep env now s tx p prev with
    | error e => exact ⟨(by intro c hc; cases hc), by simp⟩
    | ok r1 =>
      obtain ⟨s1, credits⟩ := r1
      obtain ⟨hprops, hnodup⟩ :=
        sweep_ok_credited_facts env now s tx p prev s1 credits hnow hsw
      refine ⟨?_, hnodup⟩
      intro c hc
      obtain ⟨-, h0, hset⟩ := hprops c hc
      refine ⟨h0, ?_⟩
      rw [hset]
      exact hnow

/-- A nonzero `sweptAt` survives a whole run of operations unchanged. -/
lemma runOps_sweptAt_mono (env : Env) :
    ∀ (ops : List Op) (s : BridgeState) (k : DepKey),
      (getDeposit s.deposits k).sweptAt ≠ 0 →
      (getDeposit (runOps env s ops).1.deposits k).sweptAt =
        (getDeposit s.deposits k).sweptAt := by
  intro ops
  induction ops with
  | nil => intro s k _; rfl
  | cons op rest ih =>
    intro s k hk
    rw [runOps]
    have h1 := applyOp_sweptAt_mono env s op k hk
    have h2 := ih (applyOp env s op).1 k (by rw [h1]; exact hk)
    simp only
    rw [h2, h1]

/-- Over any run whose operations carry nonzero timestamps, the credit log
contains each deposit key at most once, every logged key was unswept in
the initial state, and is swept in the final state. -/
lemma runOps_credit_log (env : Env) :
    ∀ (ops : List Op) (s : BridgeState), (∀ op ∈ ops, op.now ≠ 0) →
      ((runOps env s ops).2.map fun c => c.1).Nodup ∧
      ∀ c ∈ (runOps env s ops).2,
        (getDeposit s.deposits c.1).sweptAt = 0 ∧
        (getDeposit (runOps env s ops).1.deposits c.1).sweptAt ≠ 0 := by
  intro ops
  induction ops with
  | nil =>
    intro s _
    exact ⟨by simp [runOps], by intro c hc; cases hc⟩
  | cons op rest ih =>
    intro s hnows
    have hnow : op.now ≠ 0 := hnows op (List.mem_cons_self _ _)
    obtain ⟨hop1, hop2⟩ := applyOp_credits_facts env s op hnow
    obtain ⟨ih1, ih2⟩ := ih (applyOp env s op).1
      (fun o ho => hnows o (List.mem_cons_of_mem _ ho))
    rw [runOps]
    simp only
    constructor
    · rw [List.map_append]
      refine List.Nodup.append ?_ ih1 ?_
      · exact hop2
      · intro k hk1 hk2
        rcases List.mem_map.mp hk1 with ⟨c, hc, hck⟩
        rcases List.mem_map.mp hk2 with ⟨c', hc', hck'⟩
        obtain ⟨-, hset⟩ := hop1 c hc
        obtain ⟨hz, -⟩ := ih2 c' hc'
        rw [hck] at hset
        rw [hck'] at hz
        exact hset hz
    · intro c hc
      rcases List.mem_append.mp hc with hc | hc
      · obtain ⟨hz, hset⟩ := hop1 c hc
        refine ⟨hz, ?_⟩
        rw [runOps_sweptAt_mono env rest (applyOp env s op).1 c.1 hset]
        exact hset
      · obtain ⟨hz1, hset⟩ := ih2 c hc
        refine ⟨?_, hset⟩
        by_contra hnz
        have := applyOp_sweptAt_mono env s op c.1 hnz
        rw [hz1] at this
        exact hnz this.symm

lemma checkedSub_ok_inv (a b f : Nat) (h : checkedSub a b = .ok f) :
    b ≤ a ∧ f = a - b := by
  rw [checkedSub] at h
  by_cases hle : b ≤ a
  · simp only [hle, if_pos] at h
    cases h
    exact ⟨hle, rfl⟩
  · simp [hle] at h

lemma getSweep_mem : ∀ (l : List (Nat × Nat × Nat)) (w : Nat) (p : Nat × Nat),
    getSweep l w = some p → (w, p) ∈ l := by
  intro l
  induction l with
  | nil => intro w p h; cases h
  | cons e rest ih =>
    intro w p h
    obtain ⟨w0, p0⟩ := e
    rw [getSweep] at h
    by_cases hw : w = w0
    · simp only [hw, if_pos] at h
      cases h
      rw [hw]
      exact List.mem_cons_self _ _
    · simp only [hw, if_neg, if_false] at h
      exact List.mem_cons_of_mem _ (ih w p h)

/-- Inversion of the previous-sweep resolution: either no pointer is stored
and the empty `SweepInfo` is used, or the stored pointer equals the
idealized hash of the caller-supplied data, which is then used. -/
lemma resolvePreviousSweep_ok_inv (s : BridgeState) (w : Nat) (prev rp : SweepInfo)
    (h : resolvePreviousSweep s w prev = .ok rp) :
    (getSweep s.sweeps w = none ∧ rp = { txHash := 0, txOutputValue := 0 }) ∨
      (getSweep s.sweeps w = some (prev.txHash, prev.txOutputValue) ∧ rp = prev) := by
  rw [resolvePreviousSweep] at h
  cases hg : getSweep s.sweeps w with
  | none =>
    rw [hg] at h
    cases h
    exact Or.inl ⟨rfl, rfl⟩
  | some p =>
    rw [hg] at h
    simp only at h
    by_cases he : (prev.txHash, prev.txOutputValue) = p
    · simp only [he, if_pos] at h
      cases h
      exact Or.inr ⟨by rw [← he], rfl⟩
    · simp [he] at h

/-- Subtracting the fee share from every credit leaves the sum of registered
amounts minus `N` fee shares: the division remainder goes to nobody. -/
lemma creditAmounts_sum (feeShare : Nat) :
    ∀ (l out : List (DepKey × Nat × Nat)), creditAmounts feeShare l = .ok out →
      sumAmounts out + l.length * feeShare = sumAmounts l := by
  intro l
  induction l with
  | nil => intro out h; rw [creditAmounts] at h; cases h; simp [sumAmounts]
  | cons c rest ih =>
    intro out h
    obtain ⟨k, dep, a⟩ := c
    rw [creditAmounts, checkedSub] at h
    by_cases hle : feeShare ≤ a
    · simp only [hle, if_pos] at h
      cases hrest : creditAmounts feeShare rest with
      | error e => rw [hrest] at h; cases h
      | ok rest1 =>
        rw [hrest] at h
        cases h
        have := ih rest1 hrest
        rw [sumAmounts_cons, sumAmounts_cons]
        simp only [List.length_cons]
        rw [Nat.succ_mul]
        omega
    · simp [hle] at h

/-- In a state whose stored sweep pointers all carry a nonzero transaction
hash (as every pointer written by `sweep` does, the hash being a real
`hash256`), a resolved previous sweep with zero hash has zero value. -/
lemma resolvePreviousSweep_value (s : BridgeState) (w : Nat) (prev rp : SweepInfo)
    (hwf : ∀ e ∈ s.sweeps, e.2.1 ≠ 0)
    (h : resolvePreviousSweep s w prev = .ok rp) :
    (if rp.txHash = 0 then 0 else rp.txOutputValue) = rp.txOutputValue := by
  rcases resolvePreviousSweep_ok_inv s w prev rp h with ⟨-, hrp⟩ | ⟨hg, hrp⟩
  · subst hrp
    simp
  · subst hrp
    have := hwf _ (getSweep_mem s.sweeps w _ hg)
    simp only at this
    simp [this]

/-- C1: for every accepted sweep crediting `N ≥ 1` deposits, the Bitcoin fee
is the sum of all input values — the registered amounts of the credited
deposits plus the resolved previous-sweep output value — minus the single
output value; the fee share is `fee / N` by integer floor division; every
emitted credit is the deposit's registered amount minus the fee share; and
the division remainder is assigned to no party (the credited total plus
`N · feeShare` returns exactly the registered total). -/
theorem sweep_fee_allocation (env : Env) (now : Nat) (s : BridgeState)
    (tx : TxInfo) (p : SweepProof) (prev : SweepInfo)
    (s1 : BridgeState) (credited : List (DepKey × Nat × Nat))
    (hnow : now ≠ 0)
    (hwf : ∀ e ∈ s.sweeps, e.2.1 ≠ 0)
    (h : sweep env now s tx p prev = .ok (s1, credited)) :
    ∃ (w outVal : Nat) (rp : SweepInfo) (raw : List (DepKey × Nat × Nat)),
      processSweepTxOutput tx.outputs = .ok (w, outVal) ∧
      resolvePreviousSweep s w prev = .ok rp ∧
      1 ≤ raw.length ∧
      (∀ c ∈ raw, (getDeposit s.deposits c.1).revealedAt ≠ 0 ∧
        c.2.1 = (getDeposit s.deposits c.1).depositor ∧
        c.2.2 = (getDeposit s.deposits c.1).amount) ∧
      outVal ≤ sumAmounts raw + rp.txOutputValue ∧
      credited = raw.map (fun c => (c.1, c.2.1,
        c.2.2 - (sumAmounts raw + rp.txOutputValue - outVal) / raw.length)) ∧
      (∀ c ∈ raw,
        (sumAmounts raw + rp.txOutputValue - outVal) / raw.length ≤ c.2.2) ∧
      sumAmounts credited + raw.length *
          ((sumAmounts raw + rp.txOutputValue - outVal) / raw.length) =
        sumAmounts raw := by
  obtain ⟨w, outVal, rp, inVal, raw, deps1, fee, credited1, -, -, -, hout, hres, hin,
    hfee, hn, hcr, hr⟩ := sweep_ok_inv env now s tx p prev _ h
  obtain ⟨hlen, hv, -⟩ := processSweepTxInputs_ok_facts now s.deposits tx.inputs rp _ _ _ hin
  obtain ⟨hgo, -⟩ := processSweepTxInputs_ok_inv now s.deposits tx.inputs rp _ _ _ hin
  have hval : inVal = sumAmounts raw + rp.txOutputValue := by
    rw [hv, resolvePreviousSweep_value s w prev rp hwf hres]
  obtain ⟨hle, hfe⟩ := checkedSub_ok_inv inVal outVal fee hfee
  have hfeeval : fee = sumAmounts raw + rp.txOutputValue - outVal := by omega
  obtain ⟨hbound, hmap⟩ := creditAmounts_ok_inv _ _ _ hcr
  have hsum := creditAmounts_sum _ _ _ hcr
  have hrawfacts : ∀ c ∈ raw, (getDeposit s.deposits c.1).revealedAt ≠ 0 ∧
      c.2.1 = (getDeposit s.deposits c.1).depositor ∧
      c.2.2 = (getDeposit s.deposits c.1).amount := by
    intro c hc
    rcases processInputsGo_ok_credits now rp _ hnow tx.inputs _ _ _ _ _ _ _ _ hgo c hc with
      hmem | props
    · cases hmem
    · exact ⟨props.1, props.2.2.1, props.2.2.2.1⟩
  have hr1 : credited = credited1 := congrArg Prod.snd hr
  refine ⟨w, outVal, rp, raw, hout, hres, by omega, hrawfacts, by omega, ?_, ?_, ?_⟩
  · rw [hr1, hmap, hfeeval]
  · rw [hfeeval] at hbound
    exact hbound
  · rw [hr1]
    rw [hfeeval] at hsum
    exact hsum

/-- Concrete environment for witnesses: constant hash functions, relay
difficulties 1 (current) and 2 (previous), confirmation factor 1. -/
def env0 : Env :=
  { hashTx := fun _ => 42
    scriptHash160 := fun _ => 77
    scriptHash256 := fun _ => 770
    merkleStep := fun a b => a + b
    hashHeader := fun _ => 0
    currentEpochDifficulty := 1
    prevEpochDifficulty := 2
    txProofDifficultyFactor := 1 }

/-- A header whose merkle root matches `env0.hashTx` of any transaction and
whose target carries difficulty 1. -/
def header0 : Header := { prevHash := 0, merkleRoot := 42, target := diff1Target }

/-- A proof accepted by `checkProofFromTxHash` under `env0`. -/
def proof0 : SweepProof := { merkleNodes := [], txIndexInBlock := 0, headers := [header0] }

def c1State : BridgeState :=
  { trustedVaults := []
    deposits := [((1, 0),
      { depositor := 11, amount := 5000, revealedAt := 5, vault := 0, sweptAt := 0 })]
    sweeps := [] }

def c1Tx : TxInfo :=
  { version := 1
    inputs := [{ txHash := 1, txIndex := 0 }]
    outputs := [{ value := 4000, scriptKind := .p2wpkh, scriptHash := 88 }]
    locktime := 0 }

def c1StateAfter : BridgeState :=
  { trustedVaults := []
    deposits := [((1, 0),
      { depositor := 11, amount := 5000, revealedAt := 5, vault := 0, sweptAt := 9 }),
      ((1, 0),
      { depositor := 11, amount := 5000, revealedAt := 5, vault := 0, sweptAt := 0 })]
    sweeps := [(88, 42, 4000)] }

def c1Credited : List (DepKey × Nat × Nat) := [((1, 0), 11, 4000)]

/-- Witness for C1: the fee-allocation theorem applied to a concrete
accepted sweep of one 5000-satoshi deposit into a 4000-satoshi output
(fee 1000, fee share 1000, credit 4000). -/
theorem sweep_fee_allocation_witness :
    ∃ (w outVal : Nat) (rp : SweepInfo) (raw : List (DepKey × Nat × Nat)),
      processSweepTxOutput c1Tx.outputs = .ok (w, outVal) ∧
      resolvePreviousSweep c1State w { txHash := 0, txOutputValue := 0 } = .ok rp ∧
      1 ≤ raw.length ∧
      (∀ c ∈ raw, (getDeposit c1State.deposits c.1).revealedAt ≠ 0 ∧
        c.2.1 = (getDeposit c1State.deposits c.1).depositor ∧
        c.2.2 = (getDeposit c1State.deposits c.1).amount) ∧
      outVal ≤ sumAmounts raw + rp.txOutputValue ∧
      c1Credited = raw.map (fun c => (c.1, c.2.1,
        c.2.2 - (sumAmounts raw + rp.txOutputValue - outVal) / raw.length)) ∧
      (∀ c ∈ raw,
        (sumAmounts raw + rp.txOutputValue - outVal) / raw.length ≤ c.2.2) ∧
      sumAmounts c1Credited + raw.length *
          ((sumAmounts raw + rp.txOutputValue - outVal) / raw.length) =
        sumAmounts raw :=
  sweep_fee_allocation env0 9 c1State c1Tx proof0 { txHash := 0, txOutputValue := 0 }
    c1StateAfter c1Credited (by decide) (by simp [c1State]) (by decide)

/-- C10: a sweep can never complete while crediting zero depositors.  Every
accepted sweep credits a non-empty deposit list, and whenever input
processing yields an empty credited-deposit list (for example a non-first
sweep spending only the previous sweep's output) with a non-negative fee,
the fee-share computation divides by the zero deposit count and the call
reverts with the division-by-zero panic. -/
theorem sweep_requires_deposits :
    (∀ (env : Env) (now : Nat) (s : BridgeState) (tx : TxInfo) (p : SweepProof)
      (prev : SweepInfo) (s1 : BridgeState) (credited : List (DepKey × Nat × Nat)),
      sweep env now s tx p prev = .ok (s1, credited) → credited ≠ []) ∧
    (∀ (env : Env) (now : Nat) (s : BridgeState) (tx : TxInfo) (p : SweepProof)
      (prev : SweepInfo) (w outVal : Nat) (rp : SweepInfo) (inVal : Nat)
      (deps1 : List (DepKey × DepositInfo)),
      tx.inputs ≠ [] → tx.outputs ≠ [] →
      checkProofFromTxHash env (env.hashTx tx) p = .ok () →
      processSweepTxOutput tx.outputs = .ok (w, outVal) →
      resolvePreviousSweep s w prev = .ok rp →
      processSweepTxInputs now s.deposits tx.inputs rp = .ok (inVal, [], deps1) →
      outVal ≤ inVal →
      sweep env now s tx p prev = .error .panicDivisionByZero) := by
  constructor
  · intro env now s tx p prev s1 credited h
    obtain ⟨w, outVal, rp, inVal, raw, deps1, fee, credited1, -, -, -, -, -, -, -, hn,
      hcr, hr⟩ := sweep_ok_inv env now s tx p prev _ h
    obtain ⟨-, hmap⟩ := creditAmounts_ok_inv _ _ _ hcr
    have hr1 : credited = credited1 := congrArg Prod.snd hr
    rw [hr1, hmap]
    intro hnil
    rw [List.map_eq_nil_iff] at hnil
    exact hn (by rw [hnil]; rfl)
  · intro env now s tx p prev w outVal rp inVal deps1 hi ho hchk hout hres hin hle
    rw [sweep_eq_stage env now s tx p prev w outVal rp hi ho hchk hout hres]
    rw [hin]
    simp only
    rw [checkedSub]
    simp only [hle, if_pos]
    simp

def c10State : BridgeState :=
  { trustedVaults := [], deposits := [], sweeps := [(88, 5, 700)] }

def c10Tx : TxInfo :=
  { version := 1
    inputs := [{ txHash := 5, txIndex := 0 }]
    outputs := [{ value := 600, scriptKind := .p2wpkh, scriptHash := 88 }]
    locktime := 0 }

/-- Witness for C10: a non-first sweep spending only the previous sweep
output reverts with the division-by-zero panic, and the concrete accepted
sweep of C1's scenario credits a non-empty list. -/
theorem sweep_requires_deposits_witness :
    sweep env0 9 c10State c10Tx proof0 { txHash := 5, txOutputValue := 700 } =
        .error .panicDivisionByZero ∧
      c1Credited ≠ [] :=
  ⟨sweep_requires_deposits.2 env0 9 c10State c10Tx proof0
      { txHash := 5, txOutputValue := 700 } 88 600 { txHash := 5, txOutputValue := 700 }
      700 [] (by decide) (by decide) (by decide) (by decide) (by decide) (by decide)
      (by decide),
    sweep_requires_deposits.1 env0 9 c1State c1Tx proof0 { txHash := 0, txOutputValue := 0 }
      c1StateAfter c1Credited (by decide)⟩

/-- C3: once a deposit record's `sweptAt` is set, it stays.  An input whose
record is revealed and already swept makes input processing revert with
the dedicated `Deposit already swept` error (stated for the first input,
where the check is reached directly); an accepted sweep only ever consumes
revealed deposits that were unswept; over any run of reveal and sweep
operations with nonzero timestamps no deposit key is credited twice; and a
nonzero `sweptAt` is never changed by any operation. -/
theorem deposit_swept_once :
    (∀ (now : Nat) (deps : List (DepKey × DepositInfo)) (prev : SweepInfo)
      (i : TxInput) (rest : List TxInput),
      (getDeposit deps (i.txHash, i.txIndex)).revealedAt ≠ 0 →
      (getDeposit deps (i.txHash, i.txIndex)).sweptAt ≠ 0 →
      processSweepTxInputs now deps (i :: rest) prev = .error .depositAlreadySwept) ∧
    (∀ (env : Env) (now : Nat) (s : BridgeState) (tx : TxInfo) (p : SweepProof)
      (prev : SweepInfo) (s1 : BridgeState) (credited : List (DepKey × Nat × Nat)),
      now ≠ 0 → sweep env now s tx p prev = .ok (s1, credited) →
      ∀ i ∈ tx.inputs,
        (getDeposit s.deposits (i.txHash, i.txIndex)).revealedAt ≠ 0 →
        (getDeposit s.deposits (i.txHash, i.txIndex)).sweptAt = 0) ∧
    (∀ (env : Env) (ops : List Op) (s : BridgeState),
      (∀ op ∈ ops, op.now ≠ 0) →
      ((runOps env s ops).2.map fun c => c.1).Nodup) ∧
    (∀ (env : Env) (ops : List Op) (s : BridgeState) (k : DepKey),
      (getDeposit s.deposits k).sweptAt ≠ 0 →
      (getDeposit (runOps env s ops).1.deposits k).sweptAt =
        (getDeposit s.deposits k).sweptAt) := by
  refine ⟨?_, ?_, ?_, ?_⟩
  · intro now deps prev i rest hrev hswe
    have hgo : ∀ (maxD : Nat) (flag : Bool),
        processInputsGo now prev maxD deps flag 0 [] (i :: rest) =
          .error .depositAlreadySwept := by
      intro maxD flag
      rw [processInputsGo]
      simp [hrev, hswe]
    rw [processSweepTxInputs]
    by_cases hp : prev.txHash = 0
    · simp only [hp, if_pos, if_true]
      rw [hgo]
    · simp only [hp, if_neg, if_false]
      have hlen : ¬((i :: rest).length = 0) := by simp
      simp only [hlen, if_neg, if_false]
      rw [hgo]
  · intro env now s tx p prev s1 credited hnow h i hi hrev
    obtain ⟨w, outVal, rp, inVal, raw, deps1, fee, credited1, -, -, -, -, -, hin, -, -, -, -⟩ :=
      sweep_ok_inv env now s tx p prev _ h
    obtain ⟨hgo, -⟩ := processSweepTxInputs_ok_inv now s.deposits tx.inputs rp _ _ _ hin
    exact processInputsGo_ok_unswept now rp _ tx.inputs _ _ _ _ _ _ _ _ hgo i hi hrev
  · intro env ops s hnows
    exact (runOps_credit_log env ops s hnows).1
  · intro env ops s k hk
    exact runOps_sweptAt_mono env ops s k hk

def c3Deps : List (DepKey × DepositInfo) :=
  [((3, 0), { depositor := 7, amount := 900, revealedAt := 4, vault := 0, sweptAt := 6 })]

/-- Witness for C3: a sweep input referring to an already-swept revealed
deposit makes input processing fail with `Deposit already swept`, and a
nonzero `sweptAt` survives a concrete run. -/
theorem deposit_swept_once_witness :
    processSweepTxInputs 9 c3Deps [{ txHash := 3, txIndex := 0 }]
        { txHash := 0, txOutputValue := 0 } = .error .depositAlreadySwept ∧
      (getDeposit (runOps env0 { trustedVaults := [], deposits := c3Deps, sweeps := [] }
          []).1.deposits (3, 0)).sweptAt =
        (getDeposit c3Deps (3, 0)).sweptAt :=
  ⟨deposit_swept_once.1 9 c3Deps { txHash := 0, txOutputValue := 0 }
      { txHash := 3, txIndex := 0 } [] (by decide) (by decide),
    deposit_swept_once.2.2.2 env0 []
      { trustedVaults := [], deposits := c3Deps, sweeps := [] } (3, 0) (by decide)⟩

/-- Error propagation of the previous-sweep resolution stage. -/
lemma sweep_eq_resolve_error (env : Env) (now : Nat) (s : BridgeState) (tx : TxInfo)
    (p : SweepProof) (prev : SweepInfo) (w outVal : Nat) (e : BridgeError)
    (hi : tx.inputs ≠ []) (ho : tx.outputs ≠ [])
    (hchk : checkProofFromTxHash env (env.hashTx tx) p = .ok ())
    (hout : processSweepTxOutput tx.outputs = .ok (w, outVal))
    (hres : resolvePreviousSweep s w prev = .error e) :
    sweep env now s tx p prev = .error e := by
  rw [sweep]
  simp only [hi, ho, if_neg, if_false, hchk, hout, hres]

def c2State : BridgeState :=
  { trustedVaults := []
    deposits := [((9, 0),
      { depositor := 1, amount := 1000, revealedAt := 3, vault := 0, sweptAt := 0 })]
    sweeps := [(88, 5, 700)] }

def c2Tx : TxInfo :=
  { version := 1
    inputs := [{ txHash := 9, txIndex := 0 }]
    outputs := [{ value := 500, scriptKind := .p2wpkh, scriptHash := 88 }]
    locktime := 0 }

/-- Counterexample to C2 as stated: this wallet has a stored previous sweep
pointer, the caller-supplied previous-sweep data matches it, and the sweep
transaction does not spend the previous sweep output (its only input is a
fresh revealed deposit) — yet the call fails with the array-bounds panic,
not with `MissingPreviousSweepInput` or `InvalidPreviousSweepData`. -/
theorem sweep_prev_chain_counterexample :
    getSweep c2State.sweeps 88 = some (5, 700) ∧
      (∀ i ∈ c2Tx.inputs, i.txHash ≠ 5) ∧
      sweep env0 9 c2State c2Tx proof0 { txHash := 5, txOutputValue := 700 } =
        .error .panicIndexOutOfBounds ∧
      (BridgeError.panicIndexOutOfBounds ≠ .invalidPreviousSweepData ∧
        BridgeError.panicIndexOutOfBounds ≠ .previousSweepOutputNotPresent) := by
  decide

/-- C2 (amended): a sweep succeeds only if either no previous sweep pointer
is stored for the output wallet, or the caller-supplied previous-sweep
data hashes to the stored pointer and — whenever that pointer's
transaction hash is nonzero, as every really stored pointer's is — some
input's previous transaction hash equals it (the output index is not
compared, see C4); a successful sweep overwrites the pointer with the
idealized `hash(sweepTxHash ‖ sweepTxOutputValue)`.  A second sweep whose
claimed data mismatches the stored pointer fails with
`InvalidPreviousSweepData`; one that never spends the previous sweep's
transaction fails with `UnknownInputOrigin`, `DepositAlreadySwept` or the
array-bounds panic — the dedicated `MissingPreviousSweepInput` require
being unreachable. -/
theorem sweep_prev_chain :
    (∀ (env : Env) (now : Nat) (s : BridgeState) (tx : TxInfo) (p : SweepProof)
      (prev : SweepInfo) (s1 : BridgeState) (credited : List (DepKey × Nat × Nat)),
      sweep env now s tx p prev = .ok (s1, credited) →
      ∃ w outVal, processSweepTxOutput tx.outputs = .ok (w, outVal) ∧
        (getSweep s.sweeps w = none ∨
          (getSweep s.sweeps w = some (prev.txHash, prev.txOutputValue) ∧
            (prev.txHash ≠ 0 → ∃ i ∈ tx.inputs, i.txHash = prev.txHash))) ∧
        getSweep s1.sweeps w = some (env.hashTx tx, outVal)) ∧
    (∀ (env : Env) (now : Nat) (s : BridgeState) (tx : TxInfo) (p : SweepProof)
      (prev : SweepInfo) (w outVal : Nat) (q : Nat × Nat),
      tx.inputs ≠ [] → tx.outputs ≠ [] →
      checkProofFromTxHash env (env.hashTx tx) p = .ok () →
      processSweepTxOutput tx.outputs = .ok (w, outVal) →
      getSweep s.sweeps w = some q → q ≠ (prev.txHash, prev.txOutputValue) →
      sweep env now s tx p prev = .error .invalidPreviousSweepData) ∧
    (∀ (env : Env) (now : Nat) (s : BridgeState) (tx : TxInfo) (p : SweepProof)
      (prev : SweepInfo) (w outVal : Nat),
      tx.inputs ≠ [] → tx.outputs ≠ [] →
      checkProofFromTxHash env (env.hashTx tx) p = .ok () →
      processSweepTxOutput tx.outputs = .ok (w, outVal) →
      getSweep s.sweeps w = some (prev.txHash, prev.txOutputValue) →
      prev.txHash ≠ 0 → (∀ i ∈ tx.inputs, i.txHash ≠ prev.txHash) →
      ∃ e, sweep env now s tx p prev = .error e ∧
        (e = .depositAlreadySwept ∨ e = .panicIndexOutOfBounds ∨
          e = .unknownInputType)) ∧
    (∀ (now : Nat) (deps : List (DepKey × DepositInfo)) (inputs : List TxInput)
      (prev : SweepInfo),
      processSweepTxInputs now deps inputs prev ≠
        .error .previousSweepOutputNotPresent) := by
  refine ⟨?_, ?_, ?_, processSweepTxInputs_ne_notPresent⟩
  · intro env now s tx p prev s1 credited h
    obtain ⟨w, outVal, rp, inVal, raw, deps1, fee, credited1, -, -, -, hout, hres, hin,
      -, -, -, hr⟩ := sweep_ok_inv env now s tx p prev _ h
    obtain ⟨-, -, hflip⟩ :=
      processSweepTxInputs_ok_facts now s.deposits tx.inputs rp _ _ _ hin
    have hs1 := congrArg Prod.fst hr
    simp only at hs1
    refine ⟨w, outVal, hout, ?_, ?_⟩
    · rcases resolvePreviousSweep_ok_inv s w prev rp hres with ⟨hg, hrp⟩ | ⟨hg, hrp⟩
      · exact Or.inl hg
      · refine Or.inr ⟨hg, fun hp => ?_⟩
        subst hrp
        exact (hflip hp).1
    · rw [hs1]
      show getSweep ((w, env.hashTx tx, outVal) :: s.sweeps) w = _
      rw [getSweep_cons]
      simp
  · intro env now s tx p prev w outVal q hi ho hchk hout hg hne
    refine sweep_eq_resolve_error env now s tx p prev w outVal _ hi ho hchk hout ?_
    rw [resolvePreviousSweep, hg]
    simp only
    have hne' : (prev.txHash, prev.txOutputValue) ≠ q := fun he => hne he.symm
    simp [hne']
  · intro env now s tx p prev w outVal hi ho hchk hout hg hp hnm
    have hres : resolvePreviousSweep s w prev = .ok prev := by
      rw [resolvePreviousSweep, hg]
      simp
    cases hin : processSweepTxInputs now s.deposits tx.inputs prev with
    | ok r2 =>
      obtain ⟨inVal, raw, deps1⟩ := r2
      obtain ⟨-, -, hflip⟩ :=
        processSweepTxInputs_ok_facts now s.deposits tx.inputs prev _ _ _ hin
      obtain ⟨i, hi1, hi2⟩ := (hflip hp).1
      exact absurd hi2 (hnm i hi1)
    | error e =>
      refine ⟨e, ?_, ?_⟩
      · rw [sweep_eq_stage env now s tx p prev w outVal prev hi ho hchk hout hres]
        rw [hin]
      · exact processSweepTxInputs_error_mem now s.deposits tx.inputs prev e hi hin

def c2bState : BridgeState :=
  { trustedVaults := [], deposits := [], sweeps := [(88, 5, 700)] }

/-- Witness for C2: a sweep whose claimed previous-sweep data does not hash
to the stored pointer fails with `Invalid previous sweep data`. -/
theorem sweep_prev_chain_witness :
    sweep env0 9 c2bState c2Tx proof0 { txHash := 6, txOutputValue := 700 } =
      .error .invalidPreviousSweepData :=
  sweep_prev_chain.2.1 env0 9 c2bState c2Tx proof0 { txHash := 6, txOutputValue := 700 }
    88 500 (5, 700) (by decide) (by decide) (by decide) (by decide) (by decide) (by decide)

/-- Counterexample to C4 as stated: an input that is not a revealed deposit
is counted as the previous-sweep input although its previous output index
is 7 — which cannot be the previous sweep's single output index 0 — the
match succeeding on the transaction hash alone, and the run completes
successfully crediting the claimed previous output value. -/
theorem prev_input_index_counterexample :
    (getDeposit [] (5, 7)).revealedAt = 0 ∧
      (7 : Nat) ≠ 0 ∧
      processSweepTxInputs 3 [] [{ txHash := 5, txIndex := 7 }]
          { txHash := 5, txOutputValue := 900 } = .ok (900, [], []) := by
  decide

/-- C4 (amended): an input that is not a revealed deposit is counted as the
previous-sweep input based on its previous transaction hash alone — the
previous output index is never compared (`claimedPreviousSweep` carries no
index), so changing the index of such an input changes nothing; an input
that is neither a revealed deposit nor carries the previous sweep's
transaction hash fails with `UnknownInputOrigin`; and at most one input
can be matched — a second candidate after the requirement is satisfied
fails with `UnknownInputOrigin`. -/
theorem prev_input_match :
    (∀ (now : Nat) (deps : List (DepKey × DepositInfo)) (prev : SweepInfo)
      (i : TxInput) (j : Nat) (rest : List TxInput),
      (getDeposit deps (i.txHash, i.txIndex)).revealedAt = 0 →
      (getDeposit deps (i.txHash, j)).revealedAt = 0 →
      processSweepTxInputs now deps ({ txHash := i.txHash, txIndex := j } :: rest) prev =
        processSweepTxInputs now deps (i :: rest) prev) ∧
    (∀ (now : Nat) (deps : List (DepKey × DepositInfo)) (prev : SweepInfo)
      (i : TxInput) (rest : List TxInput),
      (getDeposit deps (i.txHash, i.txIndex)).revealedAt = 0 →
      i.txHash ≠ prev.txHash →
      processSweepTxInputs now deps (i :: rest) prev = .error .unknownInputType) ∧
    (∀ (now : Nat) (deps : List (DepKey × DepositInfo)) (prev : SweepInfo)
      (i1 i2 : TxInput),
      (getDeposit deps (i1.txHash, i1.txIndex)).revealedAt = 0 →
      (getDeposit deps (i2.txHash, i2.txIndex)).revealedAt = 0 →
      prev.txHash ≠ 0 → i1.txHash = prev.txHash → i2.txHash = prev.txHash →
      processSweepTxInputs now deps [i1, i2] prev = .error .unknownInputType) := by
  refine ⟨?_, ?_, ?_⟩
  · intro now deps prev i j rest h1 h2
    have hgo : ∀ (maxD : Nat) (flag : Bool) (acc : Nat)
        (credits : List (DepKey × Nat × Nat)),
        processInputsGo now prev maxD deps flag acc credits
            ({ txHash := i.txHash, txIndex := j } :: rest) =
          processInputsGo now prev maxD deps flag acc credits (i :: rest) := by
      intro maxD flag acc credits
      rw [processInputsGo, processInputsGo]
      simp only [h1, h2]
      simp
    rw [processSweepTxInputs, processSweepTxInputs]
    simp only [List.length_cons, hgo]
  · intro now deps prev i rest h1 hne
    have hgo : ∀ (maxD : Nat) (flag : Bool) (acc : Nat)
        (credits : List (DepKey × Nat × Nat)),
        processInputsGo now prev maxD deps flag acc credits (i :: rest) =
          .error .unknownInputType := by
      intro maxD flag acc credits
      rw [processInputsGo]
      simp [h1, Ne.symm hne]
    rw [processSweepTxInputs]
    by_cases hp : prev.txHash = 0
    · simp only [hp, if_pos, if_true]
      rw [hgo]
    · simp only [hp, if_neg, if_false]
      have hlen : ¬((i :: rest).length = 0) := by simp
      simp only [hlen, if_neg, if_false]
      rw [hgo]
  · intro now deps prev i1 i2 h1 h2 hp hm1 hm2
    have hgo2 : ∀ (maxD : Nat) (acc : Nat) (credits : List (DepKey × Nat × Nat)),
        processInputsGo now prev maxD deps true acc credits [i2] =
          .error .unknownInputType := by
      intro maxD acc credits
      rw [processInputsGo]
      simp [h2]
    have hgo1 : ∀ (maxD : Nat),
        processInputsGo now prev maxD deps false 0 [] [i1, i2] =
          .error .unknownInputType := by
      intro maxD
      rw [processInputsGo]
      simp only [h1]
      simp [hm1.symm, hgo2]
    rw [processSweepTxInputs]
    simp only [hp, if_neg, if_false]
    have hlen : ¬(([i1, i2] : List TxInput).length = 0) := by simp
    simp only [hlen, if_neg, if_false]
    rw [hgo1]

/-- Witness for C4: a non-deposit input whose hash differs from the claimed
previous sweep's fails with `Unknown input type`. -/
theorem prev_input_match_witness :
    processSweepTxInputs 3 [] [{ txHash := 4, txIndex := 0 }]
        { txHash := 5, txOutputValue := 900 } = .error .unknownInputType :=
  prev_input_match.2.1 3 [] { txHash := 5, txOutputValue := 900 }
    { txHash := 4, txIndex := 0 } [] (by decide) (by decide)

/-- Counterexample to C5 as stated: a one-output sweep paying a P2SH script
is not rejected — `extractHash` yields a 20-byte payload for P2SH as well,
so the output passes `processSweepTxOutput` although its script is neither
P2PKH nor P2WPKH. -/
theorem sweep_output_script_counterexample :
    ScriptKind.p2sh ≠ ScriptKind.p2pkh ∧
      ScriptKind.p2sh ≠ ScriptKind.p2wpkh ∧
      processSweepTxOutput [{ value := 7000, scriptKind := .p2sh, scriptHash := 99 }] =
        .ok (99, 7000) := by
  decide

/-- C5 (amended): the sweep output processor requires exactly one output
(`MultiOutputSweepUnsupported` otherwise) whose extracted script hash is
20 bytes; that admits exactly the P2PKH, P2WPKH — and also P2SH — script
classes, while P2WSH (32-byte hash) and non-standard outputs are rejected
with the 20-byte-hash require. -/
theorem sweep_output_processing :
    (∀ (outs : List TxOutput), outs.length ≠ 1 →
      processSweepTxOutput outs = .error .multiOutputSweep) ∧
    (∀ (o : TxOutput), scriptHashLength o.scriptKind = 20 →
      processSweepTxOutput [o] = .ok (o.scriptHash, o.value)) ∧
    (∀ (o : TxOutput), scriptHashLength o.scriptKind ≠ 20 →
      processSweepTxOutput [o] = .error .wrongWalletPubKeyHashLength) ∧
    (∀ (o : TxOutput), scriptHashLength o.scriptKind = 20 ↔
      (o.scriptKind = .p2pkh ∨ o.scriptKind = .p2wpkh ∨ o.scriptKind = .p2sh)) := by
  refine ⟨?_, ?_, ?_, ?_⟩
  · intro outs hne
    rw [processSweepTxOutput.eq_def]
    simp [hne]
  · intro o h20
    rw [processSweepTxOutput.eq_def]
    simp [h20]
  · intro o h20
    rw [processSweepTxOutput.eq_def]
    simp [h20]
  · intro o
    cases o with
    | mk v k sh => cases k <;> simp [scriptHashLength]

/-- Witness for C5: a single P2WPKH output is accepted with its hash and
value, and a two-output vector is rejected. -/
theorem sweep_output_processing_witness :
    processSweepTxOutput [{ value := 4000, scriptKind := .p2wpkh, scriptHash := 88 }] =
        .ok (88, 4000) ∧
      processSweepTxOutput
          [{ value := 1, scriptKind := .p2wpkh, scriptHash := 88 },
            { value := 2, scriptKind := .p2wpkh, scriptHash := 88 }] =
        .error .multiOutputSweep :=
  ⟨sweep_output_processing.2.1 { value := 4000, scriptKind := .p2wpkh, scriptHash := 88 }
      (by decide),
    sweep_output_processing.1 _ (by decide)⟩

/-- When the recomputed merkle root differs from the given one the library
`prove` rejects. -/
lemma spvProve_eq_false (step : Nat → Nat → Nat) (txid root : Nat)
    (nodes : List Nat) (idx : Nat)
    (h : foldMerkle step txid idx nodes ≠ root) :
    spvProve step txid root nodes idx = false := by
  rw [spvProve]
  by_cases hn : nodes = []
  · subst hn
    have htx : txid ≠ root := by
      intro he
      exact h (by rw [foldMerkle, he])
    simp [htx]
  · simp [hn, h]

/-- C6: SPV proof verification fails with `InvalidMerkleProof` when the
merkle root recomputed from the path and transaction index against the
transaction hash differs from the first header's root; fails with
`StaleOrFutureDifficulty` when the first header's difficulty matches
neither the relay's current-epoch nor previous-epoch difficulty; fails
with `InsufficientAccumulatedWork` when a validated chain's accumulated
difficulty is below `requiredDifficulty × txProofDifficultyFactor`; and
succeeds on a validated chain with matching root, an epoch-matching first
difficulty and sufficient accumulated difficulty. -/
theorem spv_verification :
    (∀ (env : Env) (txh : Nat) (p : SweepProof) (h0 : Header) (hs : List Header),
      p.headers = h0 :: hs →
      foldMerkle env.merkleStep txh p.txIndexInBlock p.merkleNodes ≠ h0.merkleRoot →
      checkProofFromTxHash env txh p = .error .invalidMerkleProof) ∧
    (∀ (env : Env) (txh : Nat) (p : SweepProof) (h0 : Header) (hs : List Header),
      p.headers = h0 :: hs →
      spvProve env.merkleStep txh h0.merkleRoot p.merkleNodes p.txIndexInBlock = true →
      h0.target ≠ 0 →
      diff1Target / h0.target ≠ env.currentEpochDifficulty →
      diff1Target / h0.target ≠ env.prevEpochDifficulty →
      checkProofFromTxHash env txh p = .error .staleOrFutureDifficulty) ∧
    (∀ (env : Env) (txh : Nat) (p : SweepProof) (h0 : Header) (hs : List Header)
      (observed : Nat),
      p.headers = h0 :: hs →
      spvProve env.merkleStep txh h0.merkleRoot p.merkleNodes p.txIndexInBlock = true →
      h0.target ≠ 0 →
      (diff1Target / h0.target = env.currentEpochDifficulty ∨
        diff1Target / h0.target = env.prevEpochDifficulty) →
      validateHeaderChain env.hashHeader p.headers = .ok observed →
      observed < (diff1Target / h0.target) * env.txProofDifficultyFactor →
      checkProofFromTxHash env txh p = .error .insufficientAccumulatedDifficulty) ∧
    (∀ (env : Env) (txh : Nat) (p : SweepProof) (h0 : Header) (hs : List Header)
      (observed : Nat),
      p.headers = h0 :: hs →
      spvProve env.merkleStep txh h0.merkleRoot p.merkleNodes p.txIndexInBlock = true →
      h0.target ≠ 0 →
      (diff1Target / h0.target = env.currentEpochDifficulty ∨
        diff1Target / h0.target = env.prevEpochDifficulty) →
      validateHeaderChain env.hashHeader p.headers = .ok observed →
      observed ≥ (diff1Target / h0.target) * env.txProofDifficultyFactor →
      checkProofFromTxHash env txh p = .ok ()) := by
  refine ⟨?_, ?_, ?_, ?_⟩
  · intro env txh p h0 hs hh hne
    rw [checkProofFromTxHash]
    simp only [hh]
    rw [spvProve_eq_false env.merkleStep txh h0.merkleRoot p.merkleNodes
      p.txIndexInBlock hne]
    simp
  · intro env txh p h0 hs hh hprove ht hc hp
    rw [checkProofFromTxHash]
    simp only [hh, hprove, if_true]
    rw [evaluateProofDifficulty, calculateDifficulty]
    simp only [ht, if_neg, if_false]
    simp [hc, hp]
  · intro env txh p h0 hs observed hh hprove ht hcp hchain hlt
    rw [checkProofFromTxHash]
    simp only [hh, hprove, if_true]
    rw [evaluateProofDifficulty, calculateDifficulty]
    rw [hh] at hchain
    simp only [ht, if_neg, if_false, hchain]
    by_cases hc : diff1Target / h0.target = env.currentEpochDifficulty
    · simp only [if_pos hc]
      simp only [← hc]
      simp [Nat.not_le.mpr hlt]
    · have hp : diff1Target / h0.target = env.prevEpochDifficulty := hcp.resolve_left hc
      simp only [if_neg hc, if_pos hp]
      simp only [← hp]
      simp [Nat.not_le.mpr hlt]
  · intro env txh p h0 hs observed hh hprove ht hcp hchain hge
    rw [checkProofFromTxHash]
    simp only [hh, hprove, if_true]
    rw [evaluateProofDifficulty, calculateDifficulty]
    rw [hh] at hchain
    simp only [ht, if_neg, if_false, hchain]
    by_cases hc : diff1Target / h0.target = env.currentEpochDifficulty
    · simp only [if_pos hc]
      simp only [← hc]
      simp [hge]
    · have hp : diff1Target / h0.target = env.prevEpochDifficulty := hcp.resolve_left hc
      simp only [if_neg hc, if_pos hp]
      simp only [← hp]
      simp [hge]

def badRootProof : SweepProof :=
  { merkleNodes := [], txIndexInBlock := 0,
    headers := [{ prevHash := 0, merkleRoot := 43, target := diff1Target }] }

/-- Witness for C6: a concrete proof with matching root, current-epoch
difficulty and sufficient work verifies, and one with a mismatching root
fails with the merkle-proof error. -/
theorem spv_verification_witness :
    checkProofFromTxHash env0 42 proof0 = .ok () ∧
      checkProofFromTxHash env0 42 badRootProof = .error .invalidMerkleProof :=
  ⟨spv_verification.2.2.2 env0 42 proof0 header0 [] 1 (by decide) (by decide)
      (by decide) (Or.inl (by decide)) (by decide) (by decide),
    spv_verification.1 env0 42 badRootProof
      { prevHash := 0, merkleRoot := 43, target := diff1Target } [] (by decide)
      (by decide)⟩

def c7State : BridgeState :=
  { trustedVaults := []
    deposits := [((1, 0),
      { depositor := 11, amount := 1000, revealedAt := 5, vault := 0, sweptAt := 0 }),
      ((2, 0),
      { depositor := 22, amount := 10, revealedAt := 5, vault := 0, sweptAt := 0 })]
    sweeps := [] }

def c7Tx : TxInfo :=
  { version := 1
    inputs := [{ txHash := 1, txIndex := 0 }, { txHash := 2, txIndex := 0 }]
    outputs := [{ value := 0, scriptKind := .p2wpkh, scriptHash := 88 }]
    locktime := 0 }

/-- Counterexample to C7 as stated: in this otherwise provable sweep the
deposits of 1000 and 10 satoshi are consumed with output value 0, so
`fee = 1010` and `feeShare = 1010 / 2 = 505 > 10`; the claim says the
sweep is not rejected on account of that condition and a credit of
`amount − feeShare` is computed, but the checked subtraction underflows
and the whole call reverts with the arithmetic panic. -/
theorem feeshare_guard_counterexample :
    (1000 + 10 - 0 : Nat) / 2 = 505 ∧ (10 : Nat) < 505 ∧
      sweep env0 9 c7State c7Tx proof0 { txHash := 0, txOutputValue := 0 } =
        .error .panicUnderflow := by
  decide

/-- C7 (amended): the sweep logic contains no explicit guard comparing the
fee share against a credited deposit's amount; instead, whenever
`floor(fee / N)` exceeds some credited deposit's registered amount, the
checked subtraction `amount - feeShare` underflows and the entire sweep
reverts with the Solidity arithmetic panic rather than a dedicated
error. -/
theorem feeshare_underflow (env : Env) (now : Nat) (s : BridgeState) (tx : TxInfo)
    (p : SweepProof) (prev : SweepInfo) (w outVal : Nat) (rp : SweepInfo)
    (inVal : Nat) (raw : List (DepKey × Nat × Nat))
    (deps1 : List (DepKey × DepositInfo))
    (hi : tx.inputs ≠ []) (ho : tx.outputs ≠ [])
    (hchk : checkProofFromTxHash env (env.hashTx tx) p = .ok ())
    (hout : processSweepTxOutput tx.outputs = .ok (w, outVal))
    (hres : resolvePreviousSweep s w prev = .ok rp)
    (hin : processSweepTxInputs now s.deposits tx.inputs rp = .ok (inVal, raw, deps1))
    (hle : outVal ≤ inVal)
    (hex : ∃ c ∈ raw, c.2.2 < (inVal - outVal) / raw.length) :
    sweep env now s tx p prev = .error .panicUnderflow := by
  have hraw : raw.length ≠ 0 := by
    obtain ⟨c, hc, -⟩ := hex
    intro h0
    rw [List.length_eq_zero] at h0
    subst h0
    cases hc
  rw [sweep_eq_stage env now s tx p prev w outVal rp hi ho hchk hout hres]
  rw [hin]
  simp only
  rw [checkedSub]
  simp only [hle, if_pos]
  simp only [hraw, if_neg, if_false]
  rw [creditAmounts_underflow ((inVal - outVal) / raw.length) raw hex]

def c7Deps1 : List (DepKey × DepositInfo) :=
  [((2, 0), { depositor := 22, amount := 10, revealedAt := 5, vault := 0, sweptAt := 9 }),
   ((1, 0), { depositor := 11, amount := 1000, revealedAt := 5, vault := 0, sweptAt := 9 }),
   ((1, 0), { depositor := 11, amount := 1000, revealedAt := 5, vault := 0, sweptAt := 0 }),
   ((2, 0), { depositor := 22, amount := 10, revealedAt := 5, vault := 0, sweptAt := 0 })]

/-- Witness for C7's amended theorem at the concrete 1000/10-satoshi sweep. -/
theorem feeshare_underflow_witness :
    sweep env0 9 c7State c7Tx proof0 { txHash := 0, txOutputValue := 0 } =
      .error .panicUnderflow :=
  feeshare_underflow env0 9 c7State c7Tx proof0 { txHash := 0, txOutputValue := 0 }
    88 0 { txHash := 0, txOutputValue := 0 } 1010
    [((1, 0), 11, 1000), ((2, 0), 22, 10)] c7Deps1
    (by decide) (by decide) (by decide) (by decide) (by decide) (by decide)
    (by decide) (by decide)

/-- C8: for every funding outpoint and valid reveal whose reconstructed
locking-script hash matches the funding output, the first reveal succeeds
and creates the record — the depositor, vault, funding value and reveal
timestamp are stored under the outpoint key and no other record changes —
while every reveal for an outpoint whose record already exists fails with
`DuplicateReveal`, leaving the state (and hence the existing record)
unchanged. -/
theorem reveal_once :
    (∀ (env : Env) (now : Nat) (s : BridgeState) (fundingTx : TxInfo)
      (r : RevealInfo) (o : TxOutput),
      (r.vault = 0 ∨ r.vault ∈ s.trustedVaults) →
      fundingTx.outputs.get? r.fundingOutputIndex = some o →
      ((scriptHashLength o.scriptKind = 20 ∧
          o.scriptHash = env.scriptHash160 (expectedScript r)) ∨
        (scriptHashLength o.scriptKind = 32 ∧
          o.scriptHash = env.scriptHash256 (expectedScript r))) →
      (getDeposit s.deposits
        (env.hashTx fundingTx, r.fundingOutputIndex)).revealedAt = 0 →
      ∃ s1, revealDeposit env now s fundingTx r = .ok s1 ∧
        getDeposit s1.deposits (env.hashTx fundingTx, r.fundingOutputIndex) =
          { depositor := r.depositor
            amount := o.value
            revealedAt := now
            vault := r.vault
            sweptAt := (getDeposit s.deposits
              (env.hashTx fundingTx, r.fundingOutputIndex)).sweptAt } ∧
        ∀ k, k ≠ (env.hashTx fundingTx, r.fundingOutputIndex) →
          getDeposit s1.deposits k = getDeposit s.deposits k) ∧
    (∀ (env : Env) (now : Nat) (s : BridgeState) (fundingTx : TxInfo)
      (r : RevealInfo) (o : TxOutput),
      (r.vault = 0 ∨ r.vault ∈ s.trustedVaults) →
      fundingTx.outputs.get? r.fundingOutputIndex = some o →
      ((scriptHashLength o.scriptKind = 20 ∧
          o.scriptHash = env.scriptHash160 (expectedScript r)) ∨
        (scriptHashLength o.scriptKind = 32 ∧
          o.scriptHash = env.scriptHash256 (expectedScript r))) →
      (getDeposit s.deposits
        (env.hashTx fundingTx, r.fundingOutputIndex)).revealedAt ≠ 0 →
      revealDeposit env now s fundingTx r = .error .depositAlreadyRevealed ∧
        applyOp env s (.revealOp fundingTx r now) = (s, [])) := by
  constructor
  · intro env now s fundingTx r o hv hout hscript hrev
    refine ⟨_, revealDeposit_ok_build env now s fundingTx r o hv hout hscript hrev, ?_, ?_⟩
    · show getDeposit (_ :: s.deposits) _ = _
      rw [getDeposit_cons]
      simp
    · intro k hk
      show getDeposit (_ :: s.deposits) k = _
      rw [getDeposit_cons]
      simp only [hk, if_neg, if_false]
  · intro env now s fundingTx r o hv hout hscript hrev
    have herr := revealDeposit_duplicate env now s fundingTx r o hv hout hscript hrev
    refine ⟨herr, ?_⟩
    rw [applyOp, herr]

def c8FundingTx : TxInfo :=
  { version := 1, inputs := [],
    outputs := [{ value := 6000, scriptKind := .p2sh, scriptHash := 77 }],
    locktime := 0 }

def c8Reveal : RevealInfo :=
  { fundingOutputIndex := 0, depositor := 31, blindingFactor := 1,
    walletPubKeyHash := 2, refundPubKeyHash := 3, refundLocktime := 4, vault := 0 }

def c8State : BridgeState := { trustedVaults := [], deposits := [], sweeps := [] }

def c8StateAfter : BridgeState :=
  { trustedVaults := []
    deposits := [((42, 0),
      { depositor := 31, amount := 6000, revealedAt := 5, vault := 0, sweptAt := 0 })]
    sweeps := [] }

/-- Witness for C8: a concrete first reveal succeeds and creates the record,
and the same reveal on the resulting state fails with the duplicate-reveal
error leaving the state unchanged. -/
theorem reveal_once_witness :
    (∃ s1, revealDeposit env0 5 c8State c8FundingTx c8Reveal = .ok s1 ∧
      getDeposit s1.deposits (env0.hashTx c8FundingTx, c8Reveal.fundingOutputIndex) =
        { depositor := c8Reveal.depositor
          amount := 6000
          revealedAt := 5
          vault := c8Reveal.vault
          sweptAt := (getDeposit c8State.deposits
            (env0.hashTx c8FundingTx, c8Reveal.fundingOutputIndex)).sweptAt } ∧
      ∀ k, k ≠ (env0.hashTx c8FundingTx, c8Reveal.fundingOutputIndex) →
        getDeposit s1.deposits k = getDeposit c8State.deposits k) ∧
    revealDeposit env0 5 c8StateAfter c8FundingTx c8Reveal =
        .error .depositAlreadyRevealed ∧
      applyOp env0 c8StateAfter (.revealOp c8FundingTx c8Reveal 5) = (c8StateAfter, []) :=
  ⟨reveal_once.1 env0 5 c8State c8FundingTx c8Reveal
      { value := 6000, scriptKind := .p2sh, scriptHash := 77 }
      (Or.inl (by decide)) (by decide) (Or.inl (by decide)) (by decide),
    reveal_once.2 env0 5 c8StateAfter c8FundingTx c8Reveal
      { value := 6000, scriptKind := .p2sh, scriptHash := 77 }
      (Or.inl (by decide)) (by decide) (Or.inl (by decide)) (by decide)⟩

/-- C9: for every non-empty, count-matched input set whose signing checks
pass, the assembler produces a transaction with exactly one output paying
the wallet's own key — P2WPKH under the witness flag, P2PKH otherwise —
whose value is the sum of all input values minus the fee, and whose
inputs are the prior main UTXO first (when present) followed by the
deposit UTXOs in caller-supplied order. -/
theorem assemble_sweep_transaction (hash160 : Nat → Nat) (fee : Int)
    (walletKey : WalletKey) (witness : Bool) (utxos : List Utxo)
    (deposits : List ClientDeposit) (mainUtxo : Option Utxo)
    (hne : utxos ≠ [])
    (hlen : utxos.length = deposits.length)
    (hmain : ∀ m, mainUtxo = some m → ownsUtxo hash160 walletKey m = true)
    (hsign : signDepositInputs hash160 walletKey (utxos.zip deposits) = .ok ()) :
    assembleDepositSweepTransaction hash160 fee walletKey witness utxos deposits
        mainUtxo =
      .ok { inputs :=
              (match mainUtxo with
                | some m => [(m.txHash, m.outputIndex)]
                | none => []) ++ utxos.map fun u => (u.txHash, u.outputIndex)
            outputs := [((if witness then ScriptKind.p2wpkh else ScriptKind.p2pkh),
              hash160 walletKey.pubKey,
              (((match mainUtxo with | some m => m.value | none => 0) +
                (utxos.map Utxo.value).sum : Nat) : Int) - fee)] } := by
  rw [assembleDepositSweepTransaction.eq_def]
  have h1 : ¬(utxos.length < 1) := by
    cases utxos with
    | nil => exact absurd rfl hne
    | cons u us => simp
  have h2 : ¬(utxos.length ≠ deposits.length) := fun hc => hc hlen
  simp only [if_neg h1, if_neg h2]
  cases mainUtxo with
  | none =>
    simp only [hsign]
  | some m =>
    have hm := hmain m rfl
    simp only [hm, if_pos, if_true, hsign]

def c9Utxo1 : Utxo :=
  { txHash := 101, outputIndex := 0, value := 25000,
    scriptKind := .p2sh, scriptPubKeyHash := 0 }

def c9Utxo2 : Utxo :=
  { txHash := 102, outputIndex := 1, value := 12000,
    scriptKind := .p2wsh, scriptPubKeyHash := 0 }

def c9Key : WalletKey := { pubKey := 7, compressed := true }

/-- Witness for C9 at the spec's concrete scenario: deposit inputs of 25000
and 12000 satoshi with fee 1600 and no prior main UTXO yield the single
wallet-owned P2WPKH output of 35400 satoshi with inputs in caller order. -/
theorem assemble_sweep_transaction_witness :
    assembleDepositSweepTransaction (fun _ => 55) 1600 c9Key true
        [c9Utxo1, c9Utxo2]
        [{ amount := 25000, walletPublicKeyHash := 55 },
          { amount := 12000, walletPublicKeyHash := 55 }] none =
      .ok { inputs := [(101, 0), (102, 1)]
            outputs := [(ScriptKind.p2wpkh, 55, (35400 : Int))] } := by
  have := assemble_sweep_transaction (fun _ => 55) 1600 c9Key true
    [c9Utxo1, c9Utxo2]
    [{ amount := 25000, walletPublicKeyHash := 55 },
      { amount := 12000, walletPublicKeyHash := 55 }] none
    (by decide) (by decide) (by intro m hm; cases hm) (by decide)
  rw [this]
  decide
